import Mathlib

/-!
# Continuum threading engine: a shallow embedding

This file embeds the decision functions and the store transactions of the
Continuum threading engine (src/threading.ts, src/types.ts, src/server.ts,
db/schema.sql) as executable Lean definitions, and proves or refutes the
stated properties about them.

Modelling conventions:
* JavaScript numbers used as scores/confidences are modelled as `ℚ`
  (every constant involved — 0.26, 0.45, 0.6, 0.62, 0.78, 0.25, 0.5 — is
  exactly representable and only compared/added, so no floating point
  rounding can change any comparison made by the code on these inputs).
* Database `TIMESTAMPTZ` values are modelled as `Nat` instants inside the
  store model; the merge tie-break in the code compares the ISO timestamp
  *strings* returned by the driver (with `?? ""` for NULL), which we keep
  as `Option String` with lexicographic comparison — faithful because ISO
  timestamps of equal length compare lexicographically like instants and
  `""` is below every non-empty string, as NULL-as-`""` is in JS.
* `string | null` fields are `Option String`; JS truthiness tests on them
  (`!threadId`, `aiDecision.archivedThreadId && …`) also reject the empty
  string, which `truthyStr` captures.
* The AI responses are unvalidated `JSON.parse` casts, so `confidence`
  on an assignment decision is `Option ℚ` (the code itself guards with
  `?? 0.5`, and `x >= 0.45` is false in JS when `x` is null/undefined).
-/

namespace Continuum

/-- The fixed stop-word set of src/threading.ts. -/
def STOP_WORDS : List String :=
  ["a", "an", "and", "are", "as", "at", "be", "by", "for", "from", "in",
   "into", "is", "it", "of", "on", "or", "that", "the", "this", "to",
   "we", "you", "with"]

/-- One character of the `replace(/[^a-z0-9\s]/g, " ")` step (applied after
lower-casing): letters, digits and whitespace survive, everything else
becomes a space. -/
def normChar (c : Char) : Char :=
  if ('a' ≤ c ∧ c ≤ 'z') ∨ ('0' ≤ c ∧ c ≤ '9') ∨ c.isWhitespace then c else ' '

/-- Split a character list at the characters satisfying `p`, returning the
maximal runs between them (the splitter of `split(/\s+/)`; JS's leading
empty-string artefact is dropped here, and is dropped by the length
filter of `tokenize` in the code). -/
def splitRunsAux (p : Char → Bool) (acc : List Char) : List Char → List (List Char)
  | [] => if acc.isEmpty then [] else [acc.reverse]
  | c :: cs =>
    if p c then
      if acc.isEmpty then splitRunsAux p [] cs
      else acc.reverse :: splitRunsAux p [] cs
    else splitRunsAux p (c :: acc) cs

/-- `tokenize` of src/threading.ts: lower-case, strip non-alphanumerics,
split on whitespace, keep words of length ≥ 3 outside the stop-word set,
as a set (modelled as a duplicate-free list). ASCII case mapping is used;
no non-ASCII letters influence any claim. -/
def tokenize (input : String) : List String :=
  (((splitRunsAux Char.isWhitespace [] (input.data.map (fun c => normChar c.toLower))).map
      String.mk).filter
    (fun w => 3 ≤ w.length ∧ ¬ w ∈ STOP_WORDS)).dedup

/-- `jaccard` of src/threading.ts over token sets represented as
duplicate-free lists. -/
def jaccard (a b : List String) : ℚ :=
  if a = [] ∨ b = [] then 0
  else
    let inter := (a.filter (fun t => t ∈ b)).length
    (inter : ℚ) / ((a.length : ℚ) + (b.length : ℚ) - (inter : ℚ))

/-- `scoreSimilarity` of src/threading.ts. -/
def scoreSimilarity (textA textB : String) : ℚ :=
  jaccard (tokenize textA) (tokenize textB)

/-- JS truthiness of a `string | null` value: null and `""` are falsy. -/
def truthyStr : Option String → Bool
  | none => false
  | some s => s ≠ ""

/-- `x >= t` in JS when `x` may be null/undefined: false unless present. -/
def confMeets (c : Option ℚ) (t : ℚ) : Bool :=
  match c with
  | some q => decide (t ≤ q)
  | none => false

inductive AssignAction where
  | assign
  | create
deriving DecidableEq

/-- `AssignmentDecision` of src/types.ts (as it exists at runtime: the AI
variant is an unvalidated JSON cast, hence the `Option` confidence). -/
structure AssignmentDecision where
  action : AssignAction
  threadId : Option String
  title : Option String
  confidence : Option ℚ
  reason : String
deriving DecidableEq

/-- `ThreadCandidate` of src/types.ts, restricted to the fields the
decision functions read. -/
structure ThreadCandidate where
  id : String
  title : String
  recent_excerpt : String
deriving DecidableEq

/-- `normalizeAssignmentDecision` of src/threading.ts. -/
def normalizeAssignmentDecision (decision : AssignmentDecision)
    (candidates : List ThreadCandidate) (fallbackTitle : String) :
    AssignmentDecision :=
  if decide (decision.action = .assign) && truthyStr decision.threadId
      && candidates.any (fun c => decide (decision.threadId = some c.id))
      && confMeets decision.confidence (45/100) then
    decision
  else
    { action := .create
      threadId := none
      title := some (decision.title.getD fallbackTitle)
      confidence := some (decision.confidence.getD (1/2))
      reason := if decision.reason = "" then "No clear active thread match."
                else decision.reason }

/-- The scored text of a candidate: `` `${candidate.title} ${candidate.recent_excerpt}` ``. -/
def candText (title excerpt : String) : String := title ++ " " ++ excerpt

/-- One step of the best-score scan shared by `fallbackAssignment` and the
heuristic part of `findRevivalSource`: replace the running best exactly on
a strictly greater score. Items are (id, text) pairs. -/
def bestStep (content : String) (best : Option (String × ℚ))
    (item : String × String) : Option (String × ℚ) :=
  let score := scoreSimilarity content item.2
  match best with
  | none => some (item.1, score)
  | some (bid, bs) => if bs < score then some (item.1, score) else some (bid, bs)

/-- The best-score scan over a candidate list. -/
def bestMatch (content : String) (items : List (String × String)) :
    Option (String × ℚ) :=
  items.foldl (bestStep content) none

/-- `fallbackAssignment` of src/threading.ts (the heuristic assignment). -/
def fallbackAssignment (content : String) (candidates : List ThreadCandidate)
    (defaultTitle : String) : AssignmentDecision :=
  match bestMatch content (candidates.map fun c => (c.id, candText c.title c.recent_excerpt)) with
  | some (bid, bs) =>
      if 26/100 ≤ bs then
        { action := .assign
          threadId := some bid
          title := none
          confidence := some (min 1 (bs + 1/4))
          reason := "Heuristic token overlap matched an existing thread." }
      else
        { action := .create
          threadId := none
          title := some defaultTitle
          confidence := some (62/100)
          reason := "No strong overlap with existing active threads." }
  | none =>
      { action := .create
        threadId := none
        title := some defaultTitle
        confidence := some (62/100)
        reason := "No strong overlap with existing active threads." }

/-- `ArchivedCandidate` of src/threading.ts. -/
structure ArchivedCandidate where
  id : String
  title : String
  recent_excerpt : String
deriving DecidableEq

/-- The revival decision returned by `AIDecider.decideRevivalLink`. -/
structure RevivalDecision where
  archivedThreadId : Option String
  confidence : ℚ
deriving DecidableEq

/-- The heuristic tail of `findRevivalSource` (lines 554-568): best Jaccard
match over the archived candidates, accepted at score ≥ 0.31. -/
def heuristicRevival (content : String) (archived : List ArchivedCandidate) :
    Option String :=
  match bestMatch content (archived.map fun c => (c.id, candText c.title c.recent_excerpt)) with
  | some (bid, bs) => if 31/100 ≤ bs then some bid else none
  | none => none

/-- `findRevivalSource` of src/threading.ts, with the surrounding I/O
abstracted: `archived` is the fetched candidate list and `ai` is the AI
call outcome — `none` when the provider is disabled *or* its call threw
(both reach the same code path), `some d` when it returned `d`. -/
def findRevivalSource (content : String) (archived : List ArchivedCandidate)
    (ai : Option RevivalDecision) : Option String :=
  if archived = [] then none
  else
    match ai with
    | some d =>
        if truthyStr d.archivedThreadId && decide (62/100 ≤ d.confidence)
            && archived.any (fun c => decide (d.archivedThreadId = some c.id)) then
          d.archivedThreadId
        else heuristicRevival content archived
    | none => heuristicRevival content archived

/-- Lexicographic comparison of character lists. -/
def charsLt : List Char → List Char → Bool
  | [], [] => false
  | [], _ :: _ => true
  | _ :: _, [] => false
  | a :: as, b :: bs => if a < b then true else if b < a then false else charsLt as bs

/-- The JS `<` on strings: lexicographic over code units (these inputs are
ASCII ISO timestamps, where code-unit and character order agree). -/
def strLtJS (a b : String) : Bool := charsLt a.data b.data

/-- `MergeCandidate` of src/threading.ts: `last_message_at` is the raw
nullable timestamp string from the driver. -/
structure MergeCandidate where
  id : String
  title : String
  last_message_at : Option String
  recent_excerpt : String
deriving DecidableEq

/-- The pair selected by `findMergePair`: two candidates and their score. -/
structure MergePair where
  source : MergeCandidate
  target : MergeCandidate
  score : ℚ
deriving DecidableEq

/-- `MergeDecision` of src/types.ts. -/
structure MergeDecision where
  shouldMerge : Bool
  sourceThreadId : String
  targetThreadId : String
  confidence : ℚ
  reason : String
deriving DecidableEq

/-- Lines 208-230 of src/threading.ts: heuristic default, AI override on a
successful call, id validation against the original pair, and the
source = target abort. `ai = none` means the provider is disabled or its
call threw. Returns (shouldMerge, sourceThreadId, targetThreadId). -/
def resolveMergeCore (pair : MergePair) (ai : Option MergeDecision) :
    Bool × String × String :=
  let heuristic : Bool × String × String :=
    (decide (78/100 ≤ pair.score), pair.source.id, pair.target.id)
  let afterAI : Bool × String × String :=
    match ai with
    | none => heuristic
    | some d => (d.shouldMerge && decide (6/10 ≤ d.confidence),
                 d.sourceThreadId, d.targetThreadId)
  let validIds : List String := [pair.source.id, pair.target.id]
  let validated : Bool × String × String :=
    if validIds.contains afterAI.2.1 && validIds.contains afterAI.2.2 then afterAI
    else (afterAI.1, pair.source.id, pair.target.id)
  if validated.2.1 = validated.2.2 then (false, validated.2.1, validated.2.2)
  else validated

/-- Lines 208-241 of src/threading.ts: the full pre-transaction merge
resolution, including the tie-break swap. Returns the (source, target)
ids of the merge to execute, or `none` when no merge happens. Note the
swap compares `pair.source.last_message_at` with
`pair.target.last_message_at` (NULL as `""`), not the timestamps of the
threads the resolved ids denote. -/
def resolveMerge (pair : MergePair) (ai : Option MergeDecision) :
    Option (String × String) :=
  let core := resolveMergeCore pair ai
  if core.1 then
    let sourceLast := pair.source.last_message_at.getD ""
    let targetLast := pair.target.last_message_at.getD ""
    if strLtJS targetLast sourceLast then some (core.2.2, core.2.1)
    else some (core.2.1, core.2.2)
  else none

/-! ## The persisted store and its transactions

Each definition below embeds one transaction of the engine (src/threading.ts)
or the producer's insert (src/server.ts).  Thread and message ids are
modelled as `Nat` drawn from per-table counters (the database uses fresh
UUIDs; the only properties used are freshness and decidable equality), and
timestamps as `Nat` instants. -/

inductive TState where
  | active
  | cooling
  | archived
  | superseded
deriving DecidableEq

inductive MStatus where
  | pending
  | in_progress
  | assigned
  | failed
deriving DecidableEq

/-- A row of `threads` (db/schema.sql). -/
structure MThread where
  id : Nat
  title : String
  state : TState
  createdAt : Nat
  updatedAt : Nat
  lastMessageAt : Option Nat
  archivedAt : Option Nat
  supersededAt : Option Nat
  revivesThreadId : Option Nat
  continuedInThreadId : Option Nat
  mergedIntoThreadId : Option Nat
deriving DecidableEq

/-- A row of `messages` (db/schema.sql). -/
structure MMessage where
  id : Nat
  createdAt : Nat
  author : String
  content : String
  threadId : Option Nat
  assignmentStatus : MStatus
  assignmentNote : Option String
deriving DecidableEq

structure Store where
  threads : List MThread
  messages : List MMessage
  nextThreadId : Nat
  nextMessageId : Nat
deriving DecidableEq

def emptyStore : Store := { threads := [], messages := [], nextThreadId := 0, nextMessageId := 0 }

def isLive : TState → Bool
  | .active => true
  | .cooling => true
  | _ => false

/-- `POST /api/messages` (src/server.ts): insert a fresh `pending` message. -/
def ingestMessage (s : Store) (author content : String) (now : Nat) : Store :=
  { s with
    messages := s.messages ++
      [{ id := s.nextMessageId, createdAt := now, author := author,
         content := content, threadId := none, assignmentStatus := .pending,
         assignmentNote := none }]
    nextMessageId := s.nextMessageId + 1 }

/-- `claimPendingMessage` (src/threading.ts): the claim transaction selects a
pending row (`FOR UPDATE SKIP LOCKED`) and marks it `in_progress`; the
condition on `pending` comes from the `SELECT` of the same transaction. -/
def claimMessage (s : Store) (mid : Nat) : Store :=
  { s with
    messages := s.messages.map fun m =>
      if m.id = mid ∧ m.assignmentStatus = .pending then
        { m with assignmentStatus := .in_progress }
      else m }

/-- `buildTitle` (src/threading.ts): first 8 whitespace-separated words,
punctuation outside word characters/hyphens stripped, first letter
capitalised, truncated to 96 characters with an ellipsis, with a fixed
placeholder for the empty result.  (JS `.slice` counts UTF-16 code units;
we count characters — no claim depends on the difference.) -/
def buildTitle (message : String) : String :=
  let words := ((message.trim.split Char.isWhitespace).filter (fun w => w ≠ "")).take 8
  let joined := (String.mk ((String.intercalate " " words).data.filter
      (fun c => c.isAlphanum ∨ c = '_' ∨ c.isWhitespace ∨ c = '-'))).trim
  if joined = "" then "Untitled discussion"
  else
    let withFirstUpper :=
      match joined.data with
      | [] => joined
      | c :: rest => String.mk (c.toUpper :: rest)
    if 96 < withFirstUpper.length then
      (String.mk (withFirstUpper.data.take 93)).trim ++ "..."
    else withFirstUpper

/-- The fields of an assignment decision that `applyAssignment` reads
(`decision.action`, `decision.threadId`, `decision.title`,
`decision.reason`; the confidence is never read by the transaction).
Thread ids in the store model are `Nat`; database ids are non-empty UUID
strings, so the JS truthiness test `!threadId` coincides with the null
test modelled by `Option`. -/
structure StoreDecision where
  action : AssignAction
  threadId : Option Nat
  title : Option String
  reason : String
deriving DecidableEq

/-- The result record of `applyAssignment`. -/
structure ApplyOut where
  store : Store
  threadId : Nat
  createdThreadId : Option Nat
  revivalLink : Option (Nat × Nat)
deriving DecidableEq

/-- Lines 587-632 of src/threading.ts: the thread-creation phase of the
assignment transaction (`if (decision.action === "create" || !threadId)`),
including the conditional revival linking.  Returns the store so far, the
thread id so far, the created thread id, and the revival link. -/
def applyCreatePhase (s : Store) (pending : MMessage) (decision : StoreDecision)
    (revivalSourceId : Option Nat) (now : Nat) :
    Store × Option Nat × Option Nat × Option (Nat × Nat) :=
  if decide (decision.action = .create) || decide (decision.threadId = none) then
      let newId := s.nextThreadId
      let newThread : MThread :=
        { id := newId, title := decision.title.getD (buildTitle pending.content),
          state := .active, createdAt := now, updatedAt := now,
          lastMessageAt := some pending.createdAt, archivedAt := none,
          supersededAt := none, revivesThreadId := none,
          continuedInThreadId := none, mergedIntoThreadId := none }
      let sIns : Store := { s with threads := s.threads ++ [newThread], nextThreadId := newId + 1 }
      match revivalSourceId with
      | some oldId =>
        if sIns.threads.any (fun t => t.id = oldId ∧ t.state = .archived) then
          let ts1 := sIns.threads.map fun t =>
            if t.id = oldId ∧ t.state = .archived then
              { t with
                state := .superseded
                supersededAt := some now
                continuedInThreadId := some newId
                updatedAt := now }
            else t
          let ts2 := ts1.map fun t =>
            if t.id = newId then
              { t with revivesThreadId := some oldId, updatedAt := now }
            else t
          ({ sIns with threads := ts2 }, some newId, some newId, some (oldId, newId))
        else (sIns, some newId, some newId, none)
      | none => (sIns, some newId, some newId, none)
  else (s, decision.threadId, none, none)

/-- Lines 638-661 of src/threading.ts: the final two UPDATEs of the
assignment transaction — point the message at the thread and mark it
`assigned`; reactivate the destination if `cooling` and raise its
`last_message_at` to at least the message's `created_at` (the SQL
`GREATEST(COALESCE(last_message_at, $2), $2)`). -/
def applyFinish (s1 : Store) (pending : MMessage) (reason : String) (tid now : Nat) : Store :=
  { s1 with
    messages := s1.messages.map fun m =>
      if m.id = pending.id then
        { m with
          threadId := some tid
          assignmentStatus := .assigned
          assignmentNote := some reason }
      else m
    threads := s1.threads.map fun t =>
      if t.id = tid then
        { t with
          state := if t.state = .cooling then .active else t.state
          updatedAt := now
          lastMessageAt := some (max (t.lastMessageAt.getD pending.createdAt) pending.createdAt) }
      else t }

/-- `applyAssignment` (src/threading.ts, lines 571-676): one transaction.
Create a thread row when the decision says `create` or carries no thread
id (via `applyCreatePhase`); then point the message at the thread, mark
it `assigned`, and update the destination thread's state and
`last_message_at` (via `applyFinish`).  The `.error` branch embeds the
`throw new Error("Assignment did not produce a thread id")` statement. -/
def applyAssignment (s : Store) (pending : MMessage) (decision : StoreDecision)
    (revivalSourceId : Option Nat) (now : Nat) : Except String ApplyOut :=
  let afterCreate := applyCreatePhase s pending decision revivalSourceId now
  match afterCreate.2.1 with
  | none => .error "Assignment did not produce a thread id"
  | some tid =>
    .ok { store := applyFinish afterCreate.1 pending decision.reason tid now
          threadId := tid
          createdThreadId := afterCreate.2.2.1
          revivalLink := afterCreate.2.2.2 }

/-- The `catch` of `processSinglePendingMessage`: mark the claimed message
`failed` with the fixed diagnostic note (its own small transaction). -/
def markFailed (s : Store) (mid : Nat) : Store :=
  { s with
    messages := s.messages.map fun m =>
      if m.id = mid then
        { m with
          assignmentStatus := .failed
          assignmentNote := some "Assignment failed. Check server logs." }
      else m }

/-- The store outcome of applying a claimed message's decision: the
committed transaction on success, the rolled-back store with the message
marked failed when the transaction throws. -/
def applyResult (s : Store) (pending : MMessage) (decision : StoreDecision)
    (revivalSourceId : Option Nat) (now : Nat) : Store :=
  match applyAssignment s pending decision revivalSourceId now with
  | .ok out => out.store
  | .error _ => markFailed s pending.id

/-- `last_message_at < NOW() - interval` with a NULL check, as in both
lifecycle UPDATEs. -/
def idleBeyond (last : Option Nat) (thr now : Nat) : Bool :=
  match last with
  | some l => decide (l + thr < now)
  | none => false

/-- Per-row effect of the first lifecycle UPDATE (`active` → `cooling`). -/
def coolThread (now thrA : Nat) (t : MThread) : MThread :=
  if t.state = .active ∧ idleBeyond t.lastMessageAt thrA now then
    { t with state := .cooling, updatedAt := now }
  else t

/-- Per-row effect of the second lifecycle UPDATE (`cooling` → `archived`,
setting `archived_at` once via COALESCE). -/
def archiveThread (now thrC : Nat) (t : MThread) : MThread :=
  if t.state = .cooling ∧ idleBeyond t.lastMessageAt thrC now then
    { t with state := .archived, archivedAt := some (t.archivedAt.getD now), updatedAt := now }
  else t

def coolPass (s : Store) (now thrA : Nat) : Store :=
  { s with threads := s.threads.map (coolThread now thrA) }

def archivePass (s : Store) (now thrC : Nat) : Store :=
  { s with threads := s.threads.map (archiveThread now thrC) }

/-- `lifecycleTick` (src/threading.ts): the cooling UPDATE followed by the
archiving UPDATE, at one instant `now`, with the two configured
thresholds. -/
def lifecycleTick (s : Store) (now thrA thrC : Nat) : Store :=
  archivePass (coolPass s now thrA) now thrC

/-- The merge transaction of `mergeTick` (src/threading.ts, lines 243-301):
conditionally supersede the source (`WHERE state IN ('active','cooling')`,
rolling back when no row qualifies), repoint the source's messages, then
force the target `active` with `last_message_at` recomputed as the max
`created_at` over the messages now pointing at it.  `none` is the
rolled-back transaction. -/
def mergeExec (s : Store) (sourceThreadId targetThreadId now : Nat) : Option Store :=
  if s.threads.any (fun t => t.id = sourceThreadId ∧ isLive t.state) then
    let ts1 := s.threads.map fun t =>
      if t.id = sourceThreadId ∧ isLive t.state then
        { t with
          state := .superseded
          mergedIntoThreadId := some targetThreadId
          supersededAt := some now
          updatedAt := now }
      else t
    let ms1 := s.messages.map fun m =>
      if m.threadId = some sourceThreadId then { m with threadId := some targetThreadId }
      else m
    let newLast := ((ms1.filter (fun m => m.threadId = some targetThreadId)).map
      (fun m => m.createdAt)).max?
    let ts2 := ts1.map fun t =>
      if t.id = targetThreadId then
        { t with state := .active, lastMessageAt := newLast, updatedAt := now }
      else t
    some { s with threads := ts2, messages := ms1 }
  else none

/-! ## The step relation

One step is one committed transaction.  Parameters that the engine
computes in *earlier* transactions of the same tick (the claimed row, the
decision, the revival source id, the merge pair) are free parameters of
the step, constrained only by what the transaction itself checks — this
is exactly the staleness the code's conditional UPDATEs are designed to
absorb.  The `strict` flag adds the one precondition the merge
transaction does *not* re-check: that the target is still live at commit
time. -/

inductive EngineStep (strict : Bool) : Store → Store → Prop where
  | ingest (s : Store) (author content : String) (now : Nat) :
      EngineStep strict s (ingestMessage s author content now)
  | claimStep (s : Store) (m : MMessage) (hm : m ∈ s.messages)
      (hp : m.assignmentStatus = .pending)
      (hold : ∀ m2 ∈ s.messages, m2.assignmentStatus = .pending → m.createdAt ≤ m2.createdAt) :
      EngineStep strict s (claimMessage s m.id)
  | applyStep (s : Store) (m : MMessage) (decision : StoreDecision)
      (revivalSourceId : Option Nat) (now : Nat) (hm : m ∈ s.messages)
      (hs : m.assignmentStatus = .in_progress) :
      EngineStep strict s (applyResult s m decision revivalSourceId now)
  | failStep (s : Store) (m : MMessage) (hm : m ∈ s.messages)
      (hs : m.assignmentStatus = .in_progress) :
      EngineStep strict s (markFailed s m.id)
  | cool (s : Store) (now thrA : Nat) :
      EngineStep strict s (coolPass s now thrA)
  | archive (s : Store) (now thrC : Nat) :
      EngineStep strict s (archivePass s now thrC)
  | merge (s : Store) (src tgt now : Nat) (s2 : Store) (hne : src ≠ tgt)
      (h : mergeExec s src tgt now = some s2)
      (hlive : strict = true → (s.threads.any fun t => t.id = tgt ∧ isLive t.state) = true) :
      EngineStep strict s s2

/-- States reachable from the empty store. -/
inductive Reach (strict : Bool) : Store → Prop where
  | init : Reach strict emptyStore
  | step {s s2 : Store} (h1 : Reach strict s) (h2 : EngineStep strict s s2) :
      Reach strict s2

/-- The bidirectional revival-link invariant of the spec:
`X.revives_thread_id = Y.id` iff `Y.continued_in_thread_id = X.id`. -/
def LinkInv (s : Store) : Prop :=
  ∀ x ∈ s.threads, ∀ y ∈ s.threads,
    (x.revivesThreadId = some y.id ↔ y.continuedInThreadId = some x.id)

instance (s : Store) : Decidable (LinkInv s) :=
  inferInstanceAs (Decidable (∀ x ∈ s.threads, ∀ y ∈ s.threads,
    (x.revivesThreadId = some y.id ↔ y.continuedInThreadId = some x.id)))

/-- The allowed one-step moves of `assignment_status`:
`pending → in_progress → {assigned, failed}`, with `assigned` and
`failed` terminal. -/
def statusStepOK : MStatus → MStatus → Prop
  | .pending, .pending => True
  | .pending, .in_progress => True
  | .in_progress, .in_progress => True
  | .in_progress, .assigned => True
  | .in_progress, .failed => True
  | .assigned, .assigned => True
  | .failed, .failed => True
  | _, _ => False

/-- `processSinglePendingMessage` (src/threading.ts, lines 309-390) after a
successful claim of `m`: claim commits first (its own transaction); then
either some pre-transaction step throws (`failNow = true`: candidate
fetch or provider call) and the catch marks the message failed, or the
decision is applied (`applyResult` marks it failed as well when the
apply transaction itself throws). -/
def processSingle (s : Store) (m : MMessage) (decision : StoreDecision)
    (revivalSourceId : Option Nat) (now : Nat) (failNow : Bool) : Store :=
  let s1 := claimMessage s m.id
  if failNow then markFailed s1 m.id
  else applyResult s1 m decision revivalSourceId now

/-- The auxiliary inductive invariant used to prove the revival-link
property: thread ids are unique and below the id counter, link fields
only reference ids below the counter, live and archived threads carry no
`continued_in_thread_id`, and the bidirectional link invariant holds. -/
def StoreInv (s : Store) : Prop :=
  (s.threads.map MThread.id).Nodup ∧
  (∀ t ∈ s.threads, t.id < s.nextThreadId) ∧
  (∀ t ∈ s.threads, ∀ r, t.revivesThreadId = some r → r < s.nextThreadId) ∧
  (∀ t ∈ s.threads, ∀ r, t.continuedInThreadId = some r → r < s.nextThreadId) ∧
  (∀ t ∈ s.threads, t.state ≠ .superseded → t.continuedInThreadId = none) ∧
  LinkInv s

/-- A concrete two-thread store used to instantiate the merge
postcondition. -/
def mergeDemoStore : Store :=
  { threads :=
      [{ id := 0, title := "a", state := .active, createdAt := 0, updatedAt := 0,
         lastMessageAt := some 1, archivedAt := none, supersededAt := none,
         revivesThreadId := none, continuedInThreadId := none, mergedIntoThreadId := none },
       { id := 1, title := "b", state := .cooling, createdAt := 0, updatedAt := 0,
         lastMessageAt := some 2, archivedAt := none, supersededAt := none,
         revivesThreadId := none, continuedInThreadId := none, mergedIntoThreadId := none }]
    messages :=
      [{ id := 0, createdAt := 1, author := "a", content := "x", threadId := some 0,
         assignmentStatus := .assigned, assignmentNote := none },
       { id := 1, createdAt := 2, author := "b", content := "y", threadId := some 1,
         assignmentStatus := .assigned, assignmentNote := none }]
    nextThreadId := 2
    nextMessageId := 2 }

/-- The committed store of the demo merge. -/
def mergeDemoResult : Store := (mergeExec mergeDemoStore 0 1 9).getD emptyStore

/-- The candidate's score in `fallbackAssignment`: Jaccard similarity of
the message content against `title + " " + recent_excerpt`. -/
def candScore (content : String) (c : ThreadCandidate) : ℚ :=
  scoreSimilarity content (candText c.title c.recent_excerpt)

/-- A `create` decision that `normalizeAssignmentDecision` maps to itself. -/
def c3FixedPoint : AssignmentDecision :=
  { action := .create, threadId := none, title := some "T",
    confidence := some (7/10), reason := "r" }

/-- An accepted `assign` decision for the normalization witness. -/
def c3AcceptDemo : AssignmentDecision :=
  { action := .assign, threadId := some "A", title := none,
    confidence := some 1, reason := "match" }

def c3AcceptCandidate : ThreadCandidate :=
  { id := "A", title := "x", recent_excerpt := "y" }

/-- The selected pair used to exercise the merge resolution: heuristic
score 0.8 (≥ 0.78), source more recently active than target is not
relevant here. -/
def c4Pair : MergePair :=
  { source := { id := "A", title := "", last_message_at := some "2024-01-01",
                recent_excerpt := "" }
    target := { id := "B", title := "", last_message_at := some "2024-01-02",
                recent_excerpt := "" }
    score := 4/5 }

/-- An AI merge decision voting against the merge with full confidence. -/
def c4AIVeto : MergeDecision :=
  { shouldMerge := false, sourceThreadId := "A", targetThreadId := "B",
    confidence := 1, reason := "not duplicates" }

/-- An AI merge decision accepting the merge but exchanging the roles of
the pair: source := the pair's target and vice versa. -/
def c5AISwap : MergeDecision :=
  { shouldMerge := true, sourceThreadId := "B", targetThreadId := "A",
    confidence := 1, reason := "swap roles" }

/-- The archived candidate for the revival-source analysis: its
`title + excerpt` tokenizes identically to the probe message. -/
def c9Candidate : ArchivedCandidate :=
  { id := "A", title := "alpha beta", recent_excerpt := "gamma" }

/-- An AI revival decision that declines to name a thread. -/
def c9AINull : RevivalDecision := { archivedThreadId := none, confidence := 1 }

/-- An AI revival decision naming the candidate with full confidence. -/
def c9AIAccept : RevivalDecision := { archivedThreadId := some "A", confidence := 1 }

/-- A one-message store for the status-transition witness. -/
def c7Store : Store := ingestMessage emptyStore "a" "hello" 0

/-- The pending row of `c7Store`. -/
def c7Msg : MMessage :=
  { id := 0, createdAt := 0, author := "a", content := "hello",
    threadId := none, assignmentStatus := .pending, assignmentNote := none }

/-! Concrete run used for the revival-link analysis: a thread is created,
archived, revived (superseding it), re-activated by a merge whose target
it is, archived again, and revived a second time — overwriting
`continued_in_thread_id`. -/

def c6msg0 : MMessage :=
  { id := 0, createdAt := 0, author := "a", content := "m0",
    threadId := none, assignmentStatus := .in_progress, assignmentNote := none }

/-- The same row while still `pending` (as the claim transaction selects it). -/
def c6msg0p : MMessage := { c6msg0 with assignmentStatus := .pending }

def c6msg1p : MMessage :=
  { id := 1, createdAt := 100, author := "a", content := "m1",
    threadId := none, assignmentStatus := .pending, assignmentNote := none }

def c6msg2p : MMessage :=
  { id := 2, createdAt := 101, author := "a", content := "m2",
    threadId := none, assignmentStatus := .pending, assignmentNote := none }

def c6msg3p : MMessage :=
  { id := 3, createdAt := 1000, author := "a", content := "m3",
    threadId := none, assignmentStatus := .pending, assignmentNote := none }

def c6msg1 : MMessage :=
  { id := 1, createdAt := 100, author := "a", content := "m1",
    threadId := none, assignmentStatus := .in_progress, assignmentNote := none }

def c6msg2 : MMessage :=
  { id := 2, createdAt := 101, author := "a", content := "m2",
    threadId := none, assignmentStatus := .in_progress, assignmentNote := none }

def c6msg3 : MMessage :=
  { id := 3, createdAt := 1000, author := "a", content := "m3",
    threadId := none, assignmentStatus := .in_progress, assignmentNote := none }

def c6dec : StoreDecision :=
  { action := .create, threadId := none, title := some "t", reason := "r" }

def c6s1 : Store := ingestMessage emptyStore "a" "m0" 0
def c6s2 : Store := claimMessage c6s1 0
def c6s3 : Store := applyResult c6s2 c6msg0 c6dec none 1
def c6s4a : Store := coolPass c6s3 100 1
def c6s4 : Store := archivePass c6s4a 100 1
def c6s5 : Store := ingestMessage c6s4 "a" "m1" 100
def c6s6 : Store := claimMessage c6s5 1
def c6s7 : Store := applyResult c6s6 c6msg1 c6dec (some 0) 101
def c6s8 : Store := ingestMessage c6s7 "a" "m2" 101
def c6s9 : Store := claimMessage c6s8 2
def c6s10 : Store := applyResult c6s9 c6msg2 c6dec none 102
def c6s11 : Store := (mergeExec c6s10 2 0 103).getD emptyStore
def c6s12 : Store := coolPass c6s11 1000 1
def c6s13 : Store := archivePass c6s12 1000 1
def c6s14 : Store := ingestMessage c6s13 "a" "m3" 1000
def c6s15 : Store := claimMessage c6s14 3
def c6s16 : Store := applyResult c6s15 c6msg3 c6dec (some 0) 1001

/-! ## Theorems -/

lemma lifecycleThread_idem (now thrA thrC : Nat) (t : MThread) :
    archiveThread now thrC (coolThread now thrA
      (archiveThread now thrC (coolThread now thrA t))) =
    archiveThread now thrC (coolThread now thrA t) := by
  unfold coolThread archiveThread
  split_ifs <;> simp_all

/-- C8: running the lifecycle pass twice in succession (at one instant,
with no intervening activity) produces no additional state change: the
pass is idempotent as a store transformation, including for threads that
moved `active → cooling → archived` within the first pass. -/
theorem lifecycleTick_idempotent (s : Store) (now thrA thrC : Nat) :
    lifecycleTick (lifecycleTick s now thrA thrC) now thrA thrC =
    lifecycleTick s now thrA thrC := by
  unfold lifecycleTick archivePass coolPass
  simp only [List.map_map]
  congr 1
  apply List.map_congr_left
  intro t _
  simpa using lifecycleThread_idem now thrA thrC t

lemma applyCreatePhase_of_create (s : Store) (pending : MMessage)
    (decision : StoreDecision) (rsrc : Option Nat) (now : Nat)
    (h : decision.action = .create ∨ decision.threadId = none) :
    (applyCreatePhase s pending decision rsrc now).2.1 = some s.nextThreadId ∧
    (applyCreatePhase s pending decision rsrc now).2.2.1 = some s.nextThreadId := by
  have hb : (decide (decision.action = .create) || decide (decision.threadId = none)) = true := by
    rcases h with h | h <;> simp [h]
  unfold applyCreatePhase
  simp only [hb, if_true]
  rcases rsrc with _ | oldId
  · exact ⟨rfl, rfl⟩
  · dsimp only
    split
    · exact ⟨rfl, rfl⟩
    · exact ⟨rfl, rfl⟩

lemma applyCreatePhase_of_assign (s : Store) (pending : MMessage)
    (decision : StoreDecision) (rsrc : Option Nat) (now : Nat) (tid : Nat)
    (ha : decision.action = .assign) (ht : decision.threadId = some tid) :
    applyCreatePhase s pending decision rsrc now = (s, some tid, none, none) := by
  unfold applyCreatePhase
  rw [ht]
  have hb : (decide (decision.action = .create) || decide ((some tid : Option Nat) = none)) = false := by
    simp [ha]
  simp only [hb, Bool.false_eq_true, if_false]

lemma applyAssignment_eq_of_some (s : Store) (pending : MMessage)
    (decision : StoreDecision) (rsrc : Option Nat) (now : Nat) (tid : Nat)
    (h : (applyCreatePhase s pending decision rsrc now).2.1 = some tid) :
    applyAssignment s pending decision rsrc now = .ok
      { store := applyFinish (applyCreatePhase s pending decision rsrc now).1
          pending decision.reason tid now
        threadId := tid
        createdThreadId := (applyCreatePhase s pending decision rsrc now).2.2.1
        revivalLink := (applyCreatePhase s pending decision rsrc now).2.2.2 } := by
  unfold applyAssignment
  dsimp only
  rw [h]

/-- C10: `applyAssignment` always produces a thread id — it inserts a new
thread exactly when the action is `create` or the decision carries no
thread id, and otherwise uses the given id — so the internal branch
throwing "Assignment did not produce a thread id" is unreachable. -/
theorem applyAssignment_total (s : Store) (pending : MMessage)
    (decision : StoreDecision) (revivalSourceId : Option Nat) (now : Nat) :
    ∃ out : ApplyOut, applyAssignment s pending decision revivalSourceId now = .ok out ∧
      ((decision.action = .create ∨ decision.threadId = none) →
        out.threadId = s.nextThreadId ∧ out.createdThreadId = some s.nextThreadId) ∧
      (∀ tid, decision.action = .assign → decision.threadId = some tid →
        out.threadId = tid ∧ out.createdThreadId = none) := by
  by_cases hc : decision.action = .create ∨ decision.threadId = none
  · obtain ⟨h1, h2⟩ := applyCreatePhase_of_create s pending decision revivalSourceId now hc
    refine ⟨_, applyAssignment_eq_of_some s pending decision revivalSourceId now _ h1, ?_, ?_⟩
    · intro _
      exact ⟨rfl, h2⟩
    · intro tid ha ht
      rcases hc with h | h
      · rw [h] at ha; cases ha
      · rw [h] at ht; cases ht
  · push_neg at hc
    obtain ⟨ha, ht⟩ := hc
    have ha2 : decision.action = .assign := by
      cases h : decision.action
      · rfl
      · exact absurd h ha
    obtain ⟨tid0, htid⟩ := Option.ne_none_iff_exists'.mp ht
    have heq := applyCreatePhase_of_assign s pending decision revivalSourceId now tid0 ha2 htid
    have h1 : (applyCreatePhase s pending decision revivalSourceId now).2.1 = some tid0 := by
      rw [heq]
    refine ⟨_, applyAssignment_eq_of_some s pending decision revivalSourceId now _ h1, ?_, ?_⟩
    · intro h
      rcases h with h | h
      · exact absurd h ha
      · exact absurd h ht
    · intro tid hx hy
      rw [htid] at hy
      cases hy
      constructor
      · rfl
      · rw [heq]

/-- Witness for C10: the totality theorem applied at a concrete input. -/
theorem applyAssignment_total_witness :
    ∃ out : ApplyOut,
      applyAssignment emptyStore
        { id := 0, createdAt := 0, author := "a", content := "hello world",
          threadId := none, assignmentStatus := .in_progress, assignmentNote := none }
        { action := .create, threadId := none, title := some "T", reason := "r" }
        none 1 = .ok out ∧
      ((AssignAction.create = AssignAction.create ∨ (none : Option Nat) = none) →
        out.threadId = emptyStore.nextThreadId ∧
        out.createdThreadId = some emptyStore.nextThreadId) ∧
      (∀ tid, AssignAction.create = AssignAction.assign → (none : Option Nat) = some tid →
        out.threadId = tid ∧ out.createdThreadId = none) :=
  applyAssignment_total emptyStore
    { id := 0, createdAt := 0, author := "a", content := "hello world",
      threadId := none, assignmentStatus := .in_progress, assignmentNote := none }
    { action := .create, threadId := none, title := some "T", reason := "r" }
    none 1

/-- C1: for every merge the loop commits (source still live at commit,
resolved source distinct from target), afterwards every message that
pointed at the source points at the target, the source thread is
`superseded` with `merged_into_thread_id` = target and `superseded_at`
set, the target thread is `active`, and the target's `last_message_at`
is the maximum `created_at` over the messages now pointing at it (NULL
when there are none, as the SQL MAX aggregate yields). -/
theorem mergeExec_postcondition (s s2 : Store) (src tgt now : Nat)
    (hne : src ≠ tgt) (hnodup : (s.threads.map MThread.id).Nodup)
    (h : mergeExec s src tgt now = some s2) :
    s2.messages.length = s.messages.length ∧
    (∀ i (hi : i < s.messages.length) (hi2 : i < s2.messages.length),
      (s.messages.get ⟨i, hi⟩).threadId = some src →
      (s2.messages.get ⟨i, hi2⟩).threadId = some tgt) ∧
    (∀ t2 ∈ s2.threads, t2.id = src →
      t2.state = .superseded ∧ t2.mergedIntoThreadId = some tgt ∧
      t2.supersededAt = some now) ∧
    (∀ t2 ∈ s2.threads, t2.id = tgt →
      t2.state = .active ∧
      t2.lastMessageAt = ((s2.messages.filter (fun m => m.threadId = some tgt)).map
        (fun m => m.createdAt)).max?) := by
  unfold mergeExec at h
  split_ifs at h with hany
  · rw [Option.some_inj] at h
    subst h
    dsimp only
    obtain ⟨tw, htw, hcw⟩ := List.any_eq_true.mp hany
    rw [decide_eq_true_eq] at hcw
    obtain ⟨hwid, hwlive⟩ := hcw
    refine ⟨?_, ?_, ?_, ?_⟩
    · exact List.length_map _ _
    · intro i hi hi2 hold
      rw [List.get_eq_getElem] at hold
      simp only [List.get_eq_getElem, List.getElem_map, hold, if_pos, if_true]
    · intro t2 ht2 hid
      rw [List.map_map] at ht2
      obtain ⟨t0, ht0, rfl⟩ := List.mem_map.mp ht2
      simp only [Function.comp_apply] at hid ⊢
      by_cases h1 : t0.id = src ∧ isLive t0.state = true
      · rw [if_pos h1] at hid ⊢
        have hnt : ¬ (({ t0 with
            state := TState.superseded
            mergedIntoThreadId := some tgt
            supersededAt := some now
            updatedAt := now } : MThread).id = tgt) := by
          show ¬ t0.id = tgt
          rw [h1.1]
          exact hne
        rw [if_neg hnt]
        exact ⟨rfl, rfl, rfl⟩
      · rw [if_neg h1] at hid ⊢
        by_cases h2 : t0.id = tgt
        · rw [if_pos h2] at hid
          have hsrc : t0.id = src := hid
          exact absurd (hsrc ▸ h2) hne
        · rw [if_neg h2] at hid
          have heq0 : t0 = tw := List.inj_on_of_nodup_map hnodup ht0 htw (by rw [hid, hwid])
          have hlv : isLive t0.state = true := by rw [heq0]; exact hwlive
          exact absurd ⟨hid, hlv⟩ h1
    · intro t2 ht2 hid
      rw [List.map_map] at ht2
      obtain ⟨t0, ht0, rfl⟩ := List.mem_map.mp ht2
      simp only [Function.comp_apply] at hid ⊢
      by_cases h1 : t0.id = src ∧ isLive t0.state = true
      · rw [if_pos h1] at hid ⊢
        rw [apply_ite MThread.id] at hid
        dsimp only at hid
        rw [ite_self] at hid
        exact absurd (h1.1 ▸ hid) hne
      · rw [if_neg h1] at hid ⊢
        by_cases h2 : t0.id = tgt
        · rw [if_pos h2]
          exact ⟨rfl, rfl⟩
        · rw [if_neg h2] at hid
          exact absurd hid h2


/-- Witness for C1: the postcondition instantiated on a concrete committed
merge. -/
theorem mergeExec_postcondition_witness :
    ((0 : Nat) ≠ 1) ∧
    (mergeDemoStore.threads.map MThread.id).Nodup ∧
    mergeExec mergeDemoStore 0 1 9 = some mergeDemoResult ∧
    (mergeDemoResult.messages.length = mergeDemoStore.messages.length ∧
    (∀ i (hi : i < mergeDemoStore.messages.length) (hi2 : i < mergeDemoResult.messages.length),
      (mergeDemoStore.messages.get ⟨i, hi⟩).threadId = some 0 →
      (mergeDemoResult.messages.get ⟨i, hi2⟩).threadId = some 1) ∧
    (∀ t2 ∈ mergeDemoResult.threads, t2.id = 0 →
      t2.state = .superseded ∧ t2.mergedIntoThreadId = some 1 ∧
      t2.supersededAt = some 9) ∧
    (∀ t2 ∈ mergeDemoResult.threads, t2.id = 1 →
      t2.state = .active ∧
      t2.lastMessageAt = ((mergeDemoResult.messages.filter (fun m => m.threadId = some 1)).map
        (fun m => m.createdAt)).max?)) :=
  ⟨by decide, by decide, by decide,
    mergeExec_postcondition mergeDemoStore mergeDemoResult 0 1 9
      (by decide) (by decide) (by decide)⟩

lemma q45_100_le_one : (45 : ℚ)/100 ≤ 1 := by norm_num

/-- Counterexample for C3: a `create` decision with a present title, a
present confidence and a non-empty reason is returned *unchanged* by
`normalizeAssignmentDecision` although its action is not `assign` — so
"returns d unchanged if and only if d is an accepted assign" fails in the
only-if direction. -/
theorem normalizeAssignmentDecision_create_fixed_point :
    normalizeAssignmentDecision c3FixedPoint [] "fallback" = c3FixedPoint ∧
    c3FixedPoint.action ≠ .assign := by
  constructor
  · rfl
  · intro h
    cases h

/-- C3 (amended): `normalizeAssignmentDecision` returns `d` unchanged when
`d.action` is `assign`, `d.threadId` is a present non-empty id referencing
an offered candidate, and `d.confidence` is present and ≥ 0.45; in every
other case it returns the `create` decision with `threadId` null, the
decision title (or the fallback title), the decision confidence (or 0.5)
and the decision reason (or the fixed explanatory string when empty) —
which can coincide with `d` itself, so "unchanged" is not equivalent to
the accept condition. -/
theorem normalizeAssignmentDecision_spec (d : AssignmentDecision)
    (cs : List ThreadCandidate) (t : String) :
    ((d.action = .assign ∧
      (∃ sId, d.threadId = some sId ∧ sId ≠ "" ∧ ∃ c ∈ cs, c.id = sId) ∧
      (∃ q, d.confidence = some q ∧ 45/100 ≤ q)) →
      normalizeAssignmentDecision d cs t = d) ∧
    (¬ (d.action = .assign ∧
      (∃ sId, d.threadId = some sId ∧ sId ≠ "" ∧ ∃ c ∈ cs, c.id = sId) ∧
      (∃ q, d.confidence = some q ∧ 45/100 ≤ q)) →
      normalizeAssignmentDecision d cs t =
        { action := .create
          threadId := none
          title := some (d.title.getD t)
          confidence := some (d.confidence.getD (1/2))
          reason := if d.reason = "" then "No clear active thread match."
                    else d.reason }) := by
  have hiff : (decide (d.action = .assign) && truthyStr d.threadId
      && cs.any (fun c => decide (d.threadId = some c.id))
      && confMeets d.confidence (45/100)) = true ↔
      (d.action = .assign ∧
      (∃ sId, d.threadId = some sId ∧ sId ≠ "" ∧ ∃ c ∈ cs, c.id = sId) ∧
      (∃ q, d.confidence = some q ∧ 45/100 ≤ q)) := by
    constructor
    · intro h
      simp only [Bool.and_eq_true, decide_eq_true_eq, List.any_eq_true] at h
      obtain ⟨⟨⟨ha, ht⟩, hc⟩, hq⟩ := h
      refine ⟨ha, ?_, ?_⟩
      · obtain ⟨c, hcmem, hcid⟩ := hc
        rcases hs : d.threadId with _ | sId
        · rw [hs] at ht; cases ht
        · rw [hs] at hcid
          rw [Option.some_inj] at hcid
          refine ⟨sId, rfl, ?_, c, hcmem, hcid.symm⟩
          rw [hs] at ht
          simpa [truthyStr] using ht
      · unfold confMeets at hq
        rcases hs : d.confidence with _ | q
        · rw [hs] at hq; cases hq
        · rw [hs] at hq
          rw [decide_eq_true_eq] at hq
          exact ⟨q, rfl, hq⟩
    · intro h
      obtain ⟨ha, ⟨sId, hsid, hne, c, hcmem, hcid⟩, q, hq, hq45⟩ := h
      simp only [Bool.and_eq_true, decide_eq_true_eq, List.any_eq_true]
      refine ⟨⟨⟨ha, ?_⟩, ?_⟩, ?_⟩
      · rw [hsid]; simpa [truthyStr] using hne
      · exact ⟨c, hcmem, by rw [hsid, hcid]⟩
      · unfold confMeets
        rw [hq, decide_eq_true_eq]
        exact hq45
  constructor
  · intro h
    unfold normalizeAssignmentDecision
    rw [if_pos (hiff.mpr h)]
  · intro h
    unfold normalizeAssignmentDecision
    rw [if_neg (fun hb => h (hiff.mp hb))]

/-- Witness for C3 (amended): an accepted assign decision is returned
unchanged. -/
theorem normalizeAssignmentDecision_spec_witness :
    normalizeAssignmentDecision c3AcceptDemo [c3AcceptCandidate] "t" = c3AcceptDemo :=
  (normalizeAssignmentDecision_spec c3AcceptDemo [c3AcceptCandidate] "t").1
    ⟨rfl, ⟨"A", rfl, by decide, c3AcceptCandidate, by decide, rfl⟩,
     ⟨1, rfl, le_trans q45_100_le_one le_rfl⟩⟩

lemma q78_100_le_4_5 : (78 : ℚ)/100 ≤ 4/5 := by norm_num

/-- Counterexample for C4: on a pair whose heuristic score 0.8 clears the
0.78 merge bar, a successful AI call answering `shouldMerge = false`
leaves the resolved shouldMerge `false` — the claimed fallback to the
heuristic result (`shouldMerge = (score ≥ 0.78)`, which is true here)
does not happen when the AI call succeeds. -/
theorem resolveMergeCore_ai_veto_overrides_heuristic :
    resolveMergeCore c4Pair (some c4AIVeto) = (false, "A", "B") ∧
    (78/100 : ℚ) ≤ c4Pair.score := by
  constructor
  · rfl
  · exact q78_100_le_4_5

/-- C4 (amended): when the AI call is disabled or fails, the heuristic
result is used (`shouldMerge = (score ≥ 0.78)`, the pair's orientation,
abandoned if the pair ids coincide).  When the AI call succeeds, its
answer alone decides `shouldMerge` (`decision.shouldMerge ∧ confidence ≥
0.6`) — the heuristic threshold is not consulted; the AI ids are used
when both lie within the pair and are otherwise replaced by the pair's
own orientation, while `shouldMerge` remains the AI's. -/
theorem resolveMergeCore_spec (pair : MergePair) (d : MergeDecision) :
    (resolveMergeCore pair none =
      ((decide (78/100 ≤ pair.score) && !(decide (pair.source.id = pair.target.id))),
        pair.source.id, pair.target.id)) ∧
    (([pair.source.id, pair.target.id].contains d.sourceThreadId &&
      [pair.source.id, pair.target.id].contains d.targetThreadId) = true →
      resolveMergeCore pair (some d) =
        ((d.shouldMerge && decide (6/10 ≤ d.confidence) &&
          !(decide (d.sourceThreadId = d.targetThreadId))),
          d.sourceThreadId, d.targetThreadId)) ∧
    (([pair.source.id, pair.target.id].contains d.sourceThreadId &&
      [pair.source.id, pair.target.id].contains d.targetThreadId) = false →
      resolveMergeCore pair (some d) =
        ((d.shouldMerge && decide (6/10 ≤ d.confidence) &&
          !(decide (pair.source.id = pair.target.id))),
          pair.source.id, pair.target.id)) := by
  refine ⟨?_, ?_, ?_⟩
  · unfold resolveMergeCore
    have hv : ([pair.source.id, pair.target.id].contains pair.source.id &&
        [pair.source.id, pair.target.id].contains pair.target.id) = true := by
      simp [List.contains]
    dsimp only
    rw [hv, if_pos rfl]
    by_cases he : pair.source.id = pair.target.id
    · rw [if_pos he]
      simp [he]
    · rw [if_neg he]
      simp [he]
  · intro hv
    unfold resolveMergeCore
    dsimp only
    rw [hv, if_pos rfl]
    by_cases he : d.sourceThreadId = d.targetThreadId
    · rw [if_pos he]
      simp [he]
    · rw [if_neg he]
      simp [he]
  · intro hv
    unfold resolveMergeCore
    dsimp only
    rw [hv]
    simp only [Bool.false_eq_true, if_false]
    by_cases he : pair.source.id = pair.target.id
    · rw [if_pos he]
      simp [he]
    · rw [if_neg he]
      simp [he]

/-- Witness for C4 (amended): an in-pair AI decision determines the
resolved triple. -/
theorem resolveMergeCore_spec_witness :
    resolveMergeCore c4Pair (some c5AISwap) =
      ((c5AISwap.shouldMerge && decide (6/10 ≤ c5AISwap.confidence) &&
        !(decide (c5AISwap.sourceThreadId = c5AISwap.targetThreadId))),
        c5AISwap.sourceThreadId, c5AISwap.targetThreadId) :=
  (resolveMergeCore_spec c4Pair c5AISwap).2.1 (by decide)

/-- C5 (code evaluated at the failing input): with pair source "A"
(last activity 2024-01-01) and target "B" (2024-01-02), an accepted AI
decision that swaps the roles (source := "B", target := "A") resolves to
merging "B" into "A" — the kept target "A" is the *older* thread, because
the tie-break swap compares the pair's original source/target timestamps
rather than those of the threads the resolved ids denote. -/
theorem resolveMerge_swapped_roles_keep_older_target :
    resolveMerge c4Pair (some c5AISwap) = some ("B", "A") ∧
    c4Pair.source.id = "A" ∧
    strLtJS (c4Pair.source.last_message_at.getD "") (c4Pair.target.last_message_at.getD "") = true := by
  have h6 : decide ((6 : ℚ)/10 ≤ 1) = true := decide_eq_true (by norm_num)
  have hcore : resolveMergeCore c4Pair (some c5AISwap) = (true, "B", "A") := by
    simp [resolveMergeCore, c5AISwap, c4Pair, h6]
  refine ⟨?_, rfl, by decide⟩
  unfold resolveMerge
  rw [hcore]
  decide

lemma c9_score_one :
    scoreSimilarity "alpha beta gamma" (candText c9Candidate.title c9Candidate.recent_excerpt) = 1 := by
  have hcand : candText c9Candidate.title c9Candidate.recent_excerpt = "alpha beta gamma" := by decide
  have htok : tokenize "alpha beta gamma" = ["alpha", "beta", "gamma"] := by decide
  rw [hcand]
  unfold scoreSimilarity
  rw [htok]
  unfold jaccard
  rw [if_neg (by decide)]
  have hlen : ((["alpha", "beta", "gamma"].filter
      (fun t => t ∈ ["alpha", "beta", "gamma"])).length) = 3 := by decide
  dsimp only
  rw [hlen]
  norm_num

lemma c9_heuristic : heuristicRevival "alpha beta gamma" [c9Candidate] = some "A" := by
  unfold heuristicRevival bestMatch
  rw [List.map_cons, List.map_nil, List.foldl_cons, List.foldl_nil]
  unfold bestStep
  dsimp only
  rw [c9_score_one]
  rw [if_pos (by norm_num : (31 : ℚ)/100 ≤ 1)]
  rfl

/-- Counterexample for C9: with one archived candidate scoring 1 against
the message, a *successful* AI call that names no thread
(`archivedThreadId = null`) still yields the heuristic pick — the
heuristic fallback is not used "exactly when the provider is disabled or
fails", and a successful AI decision does not alone determine the
outcome. -/
theorem findRevivalSource_heuristic_despite_ai :
    findRevivalSource "alpha beta gamma" [c9Candidate] (some c9AINull) = some "A" ∧
    c9AINull.archivedThreadId = none := by
  constructor
  · unfold findRevivalSource
    rw [if_neg (by decide : ¬ ([c9Candidate] = ([] : List ArchivedCandidate)))]
    dsimp only
    rw [show (truthyStr c9AINull.archivedThreadId && decide (62/100 ≤ c9AINull.confidence)
        && [c9Candidate].any (fun c => decide (c9AINull.archivedThreadId = some c.id))) = false
      from rfl]
    rw [if_neg (by simp)]
    exact c9_heuristic
  · rfl

/-- C9 (amended): with archived candidates present, an accepted AI
decision (present id among the candidates, confidence ≥ 0.62) alone
determines the revival source; the heuristic Jaccard fallback is used
when the provider is disabled, its call fails, *or* its decision is
rejected; with no archived candidates the result is always `none`. -/
theorem findRevivalSource_spec (content : String) (archived : List ArchivedCandidate)
    (d : RevivalDecision) :
    (findRevivalSource content archived none =
      if archived = [] then none else heuristicRevival content archived) ∧
    (archived ≠ [] →
      (truthyStr d.archivedThreadId && decide (62/100 ≤ d.confidence) &&
        archived.any (fun c => decide (d.archivedThreadId = some c.id))) = true →
      findRevivalSource content archived (some d) = d.archivedThreadId) ∧
    (archived ≠ [] →
      (truthyStr d.archivedThreadId && decide (62/100 ≤ d.confidence) &&
        archived.any (fun c => decide (d.archivedThreadId = some c.id))) = false →
      findRevivalSource content archived (some d) = heuristicRevival content archived) := by
  refine ⟨?_, ?_, ?_⟩
  · by_cases he : archived = []
    · subst he
      rfl
    · unfold findRevivalSource
      rw [if_neg he]
  · intro he hacc
    unfold findRevivalSource
    rw [if_neg he]
    dsimp only
    rw [hacc, if_pos rfl]
  · intro he hacc
    unfold findRevivalSource
    rw [if_neg he]
    dsimp only
    rw [hacc]
    simp only [Bool.false_eq_true, if_false]

/-- Witness for C9 (amended): an accepted AI decision is returned as the
revival source. -/
theorem findRevivalSource_spec_witness :
    findRevivalSource "alpha beta gamma" [c9Candidate] (some c9AIAccept) =
      c9AIAccept.archivedThreadId :=
  (findRevivalSource_spec "alpha beta gamma" [c9Candidate] c9AIAccept).2.1
    (by decide)
    (by simp [c9AIAccept, truthyStr, c9Candidate, decide_eq_true (by norm_num : (62:ℚ)/100 ≤ 1)])


lemma statusStepOK_refl (st : MStatus) : statusStepOK st st := by
  cases st <;> trivial

lemma applyCreatePhase_fst_messages (s : Store) (pending : MMessage)
    (decision : StoreDecision) (rsrc : Option Nat) (now : Nat) :
    (applyCreatePhase s pending decision rsrc now).1.messages = s.messages := by
  unfold applyCreatePhase
  split
  · rcases rsrc with _ | oldId
    · rfl
    · dsimp only
      split
      · rfl
      · rfl
  · rfl

lemma applyCreatePhase_snd_some (s : Store) (pending : MMessage)
    (decision : StoreDecision) (rsrc : Option Nat) (now : Nat) :
    ∃ tid, (applyCreatePhase s pending decision rsrc now).2.1 = some tid := by
  by_cases hc : decision.action = .create ∨ decision.threadId = none
  · exact ⟨s.nextThreadId, (applyCreatePhase_of_create s pending decision rsrc now hc).1⟩
  · push_neg at hc
    obtain ⟨ha, ht⟩ := hc
    have ha2 : decision.action = .assign := by
      cases h2 : decision.action
      · rfl
      · exact absurd h2 ha
    obtain ⟨tid0, htid⟩ := Option.ne_none_iff_exists'.mp ht
    exact ⟨tid0, by rw [applyCreatePhase_of_assign s pending decision rsrc now tid0 ha2 htid]⟩

lemma applyResult_messages (s : Store) (pending : MMessage)
    (decision : StoreDecision) (rsrc : Option Nat) (now : Nat) :
    ∃ tid, (applyResult s pending decision rsrc now).messages =
      s.messages.map (fun m => if m.id = pending.id then
        { m with threadId := some tid, assignmentStatus := .assigned, assignmentNote := some decision.reason }
      else m) := by
  obtain ⟨tid, hp⟩ := applyCreatePhase_snd_some s pending decision rsrc now
  refine ⟨tid, ?_⟩
  unfold applyResult
  rw [applyAssignment_eq_of_some s pending decision rsrc now tid hp]
  show (applyFinish (applyCreatePhase s pending decision rsrc now).1
    pending decision.reason tid now).messages = _
  unfold applyFinish
  dsimp only
  rw [applyCreatePhase_fst_messages]

lemma mergeExec_messages (s s2 : Store) (src tgt now : Nat)
    (h : mergeExec s src tgt now = some s2) :
    s2.messages = s.messages.map (fun m =>
      if m.threadId = some src then { m with threadId := some tgt } else m) := by
  unfold mergeExec at h
  split_ifs at h
  rw [Option.some_inj] at h
  subst h
  rfl

lemma get_eq_of_id_eq (l : List MMessage) (hnd : (l.map MMessage.id).Nodup)
    (m : MMessage) (hm : m ∈ l) (i : Nat) (hi : i < l.length)
    (hid : (l.get ⟨i, hi⟩).id = m.id) : l.get ⟨i, hi⟩ = m :=
  List.inj_on_of_nodup_map hnd (List.get_mem l i hi) hm hid

/-- C7: `assignment_status` moves only along
`pending → in_progress → {assigned, failed}`.  Every committed transaction
of the engine takes each message's status one allowed step (in particular
`assigned` and `failed` are never changed once set), and a fully processed
claimed message always ends `assigned` or `failed` — never `in_progress`.
Message ids are unique (`messages.id` is the primary key), which the
per-step statement assumes. -/
theorem assignmentStatus_transitions :
    (∀ (strict : Bool) (s s2 : Store), EngineStep strict s s2 →
      (s.messages.map MMessage.id).Nodup →
      ∀ i (hi : i < s.messages.length) (hi2 : i < s2.messages.length),
        (s2.messages.get ⟨i, hi2⟩).id = (s.messages.get ⟨i, hi⟩).id ∧
        statusStepOK (s.messages.get ⟨i, hi⟩).assignmentStatus
          (s2.messages.get ⟨i, hi2⟩).assignmentStatus) ∧
    (∀ (s : Store) (m : MMessage) (decision : StoreDecision)
      (revivalSourceId : Option Nat) (now : Nat) (failNow : Bool),
      m ∈ s.messages →
      ∃ m2 ∈ (processSingle s m decision revivalSourceId now failNow).messages,
        m2.id = m.id ∧
        (m2.assignmentStatus = .assigned ∨ m2.assignmentStatus = .failed)) := by
  constructor
  · intro strict s s2 hstep hnd i hi
    cases hstep with
    | ingest author content now =>
      intro hi2
      constructor
      · simp only [List.get_eq_getElem, ingestMessage]
        rw [List.getElem_append_left hi]
      · simp only [List.get_eq_getElem, ingestMessage]
        rw [List.getElem_append_left hi]
        exact statusStepOK_refl _
    | claimStep m hm hp hold =>
      intro hi2
      constructor
      · simp only [List.get_eq_getElem, claimMessage, List.getElem_map]
        split
        · rfl
        · rfl
      · simp only [List.get_eq_getElem, claimMessage, List.getElem_map]
        split
        · rename_i hcond
          rw [hcond.2]
          trivial
        · exact statusStepOK_refl _
    | applyStep m decision revivalSourceId now hm hs =>
      intro hi2
      obtain ⟨tid, hmsgs⟩ := applyResult_messages s m decision revivalSourceId now
      constructor
      · simp only [List.get_eq_getElem, hmsgs, List.getElem_map]
        split
        · rfl
        · rfl
      · simp only [List.get_eq_getElem, hmsgs, List.getElem_map]
        split
        · rename_i hcond
          have hgm : s.messages.get ⟨i, hi⟩ = m := by
            apply get_eq_of_id_eq s.messages hnd m hm i hi
            simpa using hcond
          rw [List.get_eq_getElem] at hgm
          rw [hgm, hs]
          trivial
        · exact statusStepOK_refl _
    | failStep m hm hs =>
      intro hi2
      constructor
      · simp only [List.get_eq_getElem, markFailed, List.getElem_map]
        split
        · rfl
        · rfl
      · simp only [List.get_eq_getElem, markFailed, List.getElem_map]
        split
        · rename_i hcond
          have hgm : s.messages.get ⟨i, hi⟩ = m := by
            apply get_eq_of_id_eq s.messages hnd m hm i hi
            simpa using hcond
          rw [List.get_eq_getElem] at hgm
          rw [hgm, hs]
          trivial
        · exact statusStepOK_refl _
    | cool now thrA =>
      intro hi2
      exact ⟨rfl, statusStepOK_refl _⟩
    | archive now thrC =>
      intro hi2
      exact ⟨rfl, statusStepOK_refl _⟩
    | merge src tgt now s3 hne h hlive =>
      intro hi2
      have hmsgs := mergeExec_messages s s2 src tgt now h
      constructor
      · simp only [List.get_eq_getElem, hmsgs, List.getElem_map]
        split
        · rfl
        · rfl
      · simp only [List.get_eq_getElem, hmsgs, List.getElem_map]
        split
        · exact statusStepOK_refl _
        · exact statusStepOK_refl _
  · intro s m decision revivalSourceId now failNow hm
    obtain ⟨k, hgk⟩ := List.mem_iff_get.mp hm
    have hgetk : s.messages[(k : Nat)] = m := by
      rw [← List.get_eq_getElem]
      exact hgk
    have hcm : (claimMessage s m.id).messages = s.messages.map (fun m2 =>
        if m2.id = m.id ∧ m2.assignmentStatus = MStatus.pending then
          { m2 with assignmentStatus := MStatus.in_progress } else m2) := rfl
    unfold processSingle
    dsimp only
    by_cases hf : failNow
    · rw [if_pos hf]
      have hmf : (markFailed (claimMessage s m.id) m.id).messages =
          (claimMessage s m.id).messages.map (fun m2 => if m2.id = m.id then
            { m2 with
              assignmentStatus := MStatus.failed
              assignmentNote := some "Assignment failed. Check server logs." }
          else m2) := rfl
      have hlen : (k : Nat) < ((markFailed (claimMessage s m.id) m.id).messages).length := by
        rw [hmf, hcm]
        simp only [List.length_map]
        exact k.2
      refine ⟨(markFailed (claimMessage s m.id) m.id).messages.get ⟨k, hlen⟩,
        List.get_mem _ _ _, ?_, ?_⟩
      · simp only [List.get_eq_getElem, hmf, hcm, List.getElem_map, hgetk]
        by_cases hp : m.assignmentStatus = .pending
        · simp [hp]
        · simp [hp]
      · simp only [List.get_eq_getElem, hmf, hcm, List.getElem_map, hgetk]
        by_cases hp : m.assignmentStatus = .pending
        · simp [hp]
        · simp [hp]
    · rw [if_neg hf]
      obtain ⟨tid, hmsgs⟩ :=
        applyResult_messages (claimMessage s m.id) m decision revivalSourceId now
      have hlen : (k : Nat) <
          (applyResult (claimMessage s m.id) m decision revivalSourceId now).messages.length := by
        rw [hmsgs, hcm]
        simp only [List.length_map]
        exact k.2
      refine ⟨(applyResult (claimMessage s m.id) m decision revivalSourceId now).messages.get
        ⟨k, hlen⟩, List.get_mem _ _ _, ?_, ?_⟩
      · simp only [List.get_eq_getElem, hmsgs, hcm, List.getElem_map, hgetk]
        by_cases hp : m.assignmentStatus = .pending
        · simp [hp]
        · simp [hp]
      · simp only [List.get_eq_getElem, hmsgs, hcm, List.getElem_map, hgetk]
        by_cases hp : m.assignmentStatus = .pending
        · simp [hp]
        · simp [hp]

/-- Witness for C7: one claim step on a concrete store takes the pending
message to `in_progress`, an allowed move. -/
theorem assignmentStatus_transitions_witness :
    ((claimMessage c7Store 0).messages.get ⟨0, by decide⟩).id =
      (c7Store.messages.get ⟨0, by decide⟩).id ∧
    statusStepOK (c7Store.messages.get ⟨0, by decide⟩).assignmentStatus
      ((claimMessage c7Store 0).messages.get ⟨0, by decide⟩).assignmentStatus :=
  assignmentStatus_transitions.1 false c7Store (claimMessage c7Store 0)
    (EngineStep.claimStep c7Store c7Msg (by decide) (by decide)
      (by decide))
    (by decide) 0 (by decide) (by decide)

end Continuum
namespace Continuum

lemma storeInv_congr (s s2 : Store) (ht : s2.threads = s.threads)
    (hn : s2.nextThreadId = s.nextThreadId) (h : StoreInv s) : StoreInv s2 := by
  unfold StoreInv LinkInv at h ⊢
  rw [ht, hn]
  exact h

lemma storeInv_of_map (s s2 : Store) (g : MThread → MThread)
    (ht : s2.threads = s.threads.map g) (hn : s2.nextThreadId = s.nextThreadId)
    (hid : ∀ t, (g t).id = t.id)
    (hrv : ∀ t, (g t).revivesThreadId = t.revivesThreadId)
    (hci : ∀ t, (g t).continuedInThreadId = t.continuedInThreadId)
    (hsup : ∀ t, (g t).state = .superseded ↔ t.state = .superseded)
    (h : StoreInv s) : StoreInv s2 := by
  obtain ⟨hnd, hfr, hrb, hcb, hnll, hli⟩ := h
  refine ⟨?_, ?_, ?_, ?_, ?_, ?_⟩
  · rw [ht]
    have : (s.threads.map g).map MThread.id = s.threads.map MThread.id := by
      rw [List.map_map]
      apply List.map_congr_left
      intro t _
      exact hid t
    rw [this]
    exact hnd
  · intro t htm
    rw [ht] at htm
    obtain ⟨t0, ht0, rfl⟩ := List.mem_map.mp htm
    rw [hid, hn]
    exact hfr t0 ht0
  · intro t htm r hr
    rw [ht] at htm
    obtain ⟨t0, ht0, rfl⟩ := List.mem_map.mp htm
    rw [hrv] at hr
    rw [hn]
    exact hrb t0 ht0 r hr
  · intro t htm r hr
    rw [ht] at htm
    obtain ⟨t0, ht0, rfl⟩ := List.mem_map.mp htm
    rw [hci] at hr
    rw [hn]
    exact hcb t0 ht0 r hr
  · intro t htm hst
    rw [ht] at htm
    obtain ⟨t0, ht0, rfl⟩ := List.mem_map.mp htm
    rw [hci]
    exact hnll t0 ht0 (fun hx => hst ((hsup t0).mpr hx))
  · intro x hx y hy
    rw [ht] at hx hy
    obtain ⟨x0, hx0, rfl⟩ := List.mem_map.mp hx
    obtain ⟨y0, hy0, rfl⟩ := List.mem_map.mp hy
    rw [hrv, hci, hid, hid]
    exact hli x0 hx0 y0 hy0

lemma coolThread_props (now thr : Nat) (t : MThread) :
    (coolThread now thr t).id = t.id ∧
    (coolThread now thr t).revivesThreadId = t.revivesThreadId ∧
    (coolThread now thr t).continuedInThreadId = t.continuedInThreadId ∧
    ((coolThread now thr t).state = .superseded ↔ t.state = .superseded) := by
  unfold coolThread
  split_ifs with h
  · refine ⟨rfl, rfl, rfl, ?_⟩
    constructor
    · intro hx
      cases hx
    · intro hx
      rw [h.1] at hx
      cases hx
  · exact ⟨rfl, rfl, rfl, Iff.rfl⟩

lemma archiveThread_props (now thr : Nat) (t : MThread) :
    (archiveThread now thr t).id = t.id ∧
    (archiveThread now thr t).revivesThreadId = t.revivesThreadId ∧
    (archiveThread now thr t).continuedInThreadId = t.continuedInThreadId ∧
    ((archiveThread now thr t).state = .superseded ↔ t.state = .superseded) := by
  unfold archiveThread
  split_ifs with h
  · refine ⟨rfl, rfl, rfl, ?_⟩
    constructor
    · intro hx
      cases hx
    · intro hx
      rw [h.1] at hx
      cases hx
  · exact ⟨rfl, rfl, rfl, Iff.rfl⟩

lemma storeInv_coolPass (s : Store) (now thr : Nat) (h : StoreInv s) :
    StoreInv (coolPass s now thr) :=
  storeInv_of_map s (coolPass s now thr) (coolThread now thr) rfl rfl
    (fun t => (coolThread_props now thr t).1)
    (fun t => (coolThread_props now thr t).2.1)
    (fun t => (coolThread_props now thr t).2.2.1)
    (fun t => (coolThread_props now thr t).2.2.2) h

lemma storeInv_archivePass (s : Store) (now thr : Nat) (h : StoreInv s) :
    StoreInv (archivePass s now thr) :=
  storeInv_of_map s (archivePass s now thr) (archiveThread now thr) rfl rfl
    (fun t => (archiveThread_props now thr t).1)
    (fun t => (archiveThread_props now thr t).2.1)
    (fun t => (archiveThread_props now thr t).2.2.1)
    (fun t => (archiveThread_props now thr t).2.2.2) h

end Continuum
namespace Continuum

lemma storeInv_append (s s2 : Store) (newT : MThread)
    (ht : s2.threads = s.threads ++ [newT]) (hn : s2.nextThreadId = s.nextThreadId + 1)
    (hnid : newT.id = s.nextThreadId) (hnrv : newT.revivesThreadId = none)
    (hnci : newT.continuedInThreadId = none)
    (h : StoreInv s) : StoreInv s2 := by
  obtain ⟨hnd, hfr, hrb, hcb, hnll, hli⟩ := h
  have hnotin : newT.id ∉ s.threads.map MThread.id := by
    intro hx
    obtain ⟨t0, ht0, hid0⟩ := List.mem_map.mp hx
    have := hfr t0 ht0
    rw [hid0, hnid] at this
    exact lt_irrefl _ this
  refine ⟨?_, ?_, ?_, ?_, ?_, ?_⟩
  · rw [ht, List.map_append]
    rw [List.nodup_append]
    refine ⟨hnd, List.nodup_singleton _, ?_⟩
    intro a ha hb
    rw [List.map_singleton, List.mem_singleton] at hb
    rw [hb] at ha
    exact hnotin ha
  · intro t htm
    rw [ht, List.mem_append] at htm
    rw [hn]
    rcases htm with htm | htm
    · exact Nat.lt_succ_of_lt (hfr t htm)
    · rw [List.mem_singleton] at htm
      rw [htm, hnid]
      exact Nat.lt_succ_self _
  · intro t htm r hr
    rw [ht, List.mem_append] at htm
    rw [hn]
    rcases htm with htm | htm
    · exact Nat.lt_succ_of_lt (hrb t htm r hr)
    · rw [List.mem_singleton] at htm
      rw [htm, hnrv] at hr
      cases hr
  · intro t htm r hr
    rw [ht, List.mem_append] at htm
    rw [hn]
    rcases htm with htm | htm
    · exact Nat.lt_succ_of_lt (hcb t htm r hr)
    · rw [List.mem_singleton] at htm
      rw [htm, hnci] at hr
      cases hr
  · intro t htm hst
    rw [ht, List.mem_append] at htm
    rcases htm with htm | htm
    · exact hnll t htm hst
    · rw [List.mem_singleton] at htm
      rw [htm, hnci]
  · intro x hx y hy
    rw [ht, List.mem_append] at hx hy
    rcases hx with hx | hx <;> rcases hy with hy | hy
    · exact hli x hx y hy
    · rw [List.mem_singleton] at hy
      rw [hy]
      constructor
      · intro hr
        have h2 := hrb x hx newT.id hr
        rw [hnid] at h2
        exact absurd h2 (lt_irrefl _)
      · intro hc
        rw [hnci] at hc
        cases hc
    · rw [List.mem_singleton] at hx
      rw [hx]
      constructor
      · intro hr
        rw [hnrv] at hr
        cases hr
      · intro hc
        have h2 := hcb y hy newT.id hc
        rw [hnid] at h2
        exact absurd h2 (lt_irrefl _)
    · rw [List.mem_singleton] at hx hy
      rw [hx, hy]
      constructor
      · intro hr
        rw [hnrv] at hr
        cases hr
      · intro hc
        rw [hnci] at hc
        cases hc

end Continuum
namespace Continuum

lemma storeInv_revival (s s2 : Store) (newT : MThread) (oldId now : Nat)
    (hnid : newT.id = s.nextThreadId)
    ( _hnrv : newT.revivesThreadId = none) (hnci : newT.continuedInThreadId = none)
    (hnst : newT.state = .active)
    (harch : ∃ t0 ∈ s.threads, t0.id = oldId ∧ t0.state = .archived)
    (ht : s2.threads = ((s.threads ++ [newT]).map (fun t =>
      if t.id = oldId ∧ t.state = .archived then
        { t with
          state := .superseded
          supersededAt := some now
          continuedInThreadId := some newT.id
          updatedAt := now }
      else t)).map (fun t =>
      if t.id = newT.id then { t with revivesThreadId := some oldId, updatedAt := now } else t))
    (hn : s2.nextThreadId = s.nextThreadId + 1)
    (h : StoreInv s) : StoreInv s2 := by
  obtain ⟨t0, ht0mem, ht0id, ht0arch⟩ := harch
  obtain ⟨hnd, hfr, hrb, hcb, hnll, hli⟩ := h
  have hold_lt : oldId < s.nextThreadId := by
    rw [← ht0id]
    exact hfr t0 ht0mem
  have hold_ne : oldId ≠ newT.id := by
    rw [hnid]
    exact Nat.ne_of_lt hold_lt
  have hfields : ∀ x ∈ s2.threads,
      (∃ x0 ∈ s.threads, x.id = x0.id ∧ x.revivesThreadId = x0.revivesThreadId ∧
        (((x0.id = oldId ∧ x0.state = .archived) ∧
          x.continuedInThreadId = some newT.id ∧ x.state = .superseded) ∨
         (¬ (x0.id = oldId ∧ x0.state = .archived) ∧
          x.continuedInThreadId = x0.continuedInThreadId ∧ x.state = x0.state))) ∨
      (x.id = newT.id ∧ x.revivesThreadId = some oldId ∧
        x.continuedInThreadId = none ∧ x.state = .active) := by
    intro x hx
    rw [ht] at hx
    obtain ⟨x1, hx1, rfl⟩ := List.mem_map.mp hx
    obtain ⟨x0, hx0, rfl⟩ := List.mem_map.mp hx1
    rw [List.mem_append] at hx0
    rcases hx0 with hx0 | hx0
    · left
      refine ⟨x0, hx0, ?_⟩
      have hxid : ¬ x0.id = newT.id := by
        rw [hnid]
        exact Nat.ne_of_lt (hfr x0 hx0)
      by_cases hcnd : x0.id = oldId ∧ x0.state = .archived
      · rw [if_pos hcnd]
        rw [if_neg (show ¬ ({ x0 with
            state := TState.superseded
            supersededAt := some now
            continuedInThreadId := some newT.id
            updatedAt := now } : MThread).id = newT.id from hxid)]
        exact ⟨rfl, rfl, Or.inl ⟨hcnd, rfl, rfl⟩⟩
      · rw [if_neg hcnd, if_neg hxid]
        exact ⟨rfl, rfl, Or.inr ⟨hcnd, rfl, rfl⟩⟩
    · rw [List.mem_singleton] at hx0
      right
      rw [hx0]
      have hg1 : ¬ (newT.id = oldId ∧ newT.state = .archived) := by
        intro hx2
        rw [hnst] at hx2
        cases hx2.2
      rw [if_neg hg1, if_pos rfl]
      exact ⟨rfl, rfl, hnci, hnst⟩
  have hid2 : ∀ t : MThread, ((fun t => if t.id = newT.id then
      { t with revivesThreadId := some oldId, updatedAt := now } else t)
      ((fun t => if t.id = oldId ∧ t.state = .archived then
        { t with
          state := .superseded
          supersededAt := some now
          continuedInThreadId := some newT.id
          updatedAt := now }
      else t) t)).id = t.id := by
    intro t
    dsimp only
    by_cases hcnd : t.id = oldId ∧ t.state = .archived
    · rw [if_pos hcnd]
      split
      · rfl
      · rfl
    · rw [if_neg hcnd]
      split
      · rfl
      · rfl
  refine ⟨?_, ?_, ?_, ?_, ?_, ?_⟩
  · have heq : List.map MThread.id s2.threads =
        List.map MThread.id (s.threads ++ [newT]) := by
      rw [ht, List.map_map, List.map_map]
      apply List.map_congr_left
      intro t _
      exact hid2 t
    rw [heq, List.map_append]
    rw [List.nodup_append]
    refine ⟨hnd, List.nodup_singleton _, ?_⟩
    intro a ha hb
    rw [List.map_singleton, List.mem_singleton] at hb
    obtain ⟨u, hu, hu2⟩ := List.mem_map.mp ha
    rw [hb] at hu2
    have := hfr u hu
    rw [hu2, hnid] at this
    exact lt_irrefl _ this
  · intro t htm
    rw [hn]
    rcases hfields t htm with ⟨x0, hx0, hid, _, _⟩ | ⟨hid, _, _, _⟩
    · rw [hid]
      exact Nat.lt_succ_of_lt (hfr x0 hx0)
    · rw [hid, hnid]
      exact Nat.lt_succ_self _
  · intro t htm r hr
    rw [hn]
    rcases hfields t htm with ⟨x0, hx0, _, hrv, _⟩ | ⟨_, hrv, _, _⟩
    · rw [hrv] at hr
      exact Nat.lt_succ_of_lt (hrb x0 hx0 r hr)
    · rw [hrv] at hr
      rw [Option.some_inj] at hr
      rw [← hr]
      exact Nat.lt_succ_of_lt hold_lt
  · intro t htm r hr
    rw [hn]
    rcases hfields t htm with ⟨x0, hx0, _, _, hrest⟩ | ⟨_, _, hci, _⟩
    · rcases hrest with ⟨_, hci, _⟩ | ⟨_, hci, _⟩
      · rw [hci] at hr
        rw [Option.some_inj] at hr
        rw [← hr, hnid]
        exact Nat.lt_succ_self _
      · rw [hci] at hr
        exact Nat.lt_succ_of_lt (hcb x0 hx0 r hr)
    · rw [hci] at hr
      cases hr
  · intro t htm hst
    rcases hfields t htm with ⟨x0, hx0, _, _, hrest⟩ | ⟨_, _, hci, _⟩
    · rcases hrest with ⟨_, _, hstate⟩ | ⟨hcnd, hci, hstate⟩
      · exact absurd hstate hst
      · rw [hci]
        apply hnll x0 hx0
        intro hx2
        rw [hstate] at hst
        exact hst hx2
    · exact hci
  · intro x hx y hy
    rcases hfields x hx with ⟨x0, hx0, hxid, hxrv, hxrest⟩ | ⟨hxid, hxrv, hxci, _⟩ <;>
      rcases hfields y hy with ⟨y0, hy0, hyid, hyrv, hyrest⟩ | ⟨hyid, hyrv, hyci, _⟩
    · rw [hxrv, hyid]
      rcases hyrest with ⟨hcnd, hyci, _⟩ | ⟨hcnd, hyci, _⟩
      · rw [hyci]
        constructor
        · intro hr
          exfalso
          have hy0ci : y0.continuedInThreadId = none := by
            apply hnll y0 hy0
            rw [hcnd.2]
            intro hx2
            cases hx2
          have := (hli x0 hx0 y0 hy0).mp hr
          rw [hy0ci] at this
          cases this
        · intro hc
          exfalso
          rw [Option.some_inj] at hc
          have := hfr x0 hx0
          rw [← hxid, ← hc, hnid] at this
          exact lt_irrefl _ this
      · rw [hyci, hxid]
        exact hli x0 hx0 y0 hy0
    · rw [hxrv, hyid, hyci]
      constructor
      · intro hr
        exfalso
        have := hrb x0 hx0 newT.id hr
        rw [hnid] at this
        exact lt_irrefl _ this
      · intro hc
        cases hc
    · rw [hxrv, hyid, hxid]
      rcases hyrest with ⟨hcnd, hyci, _⟩ | ⟨hcnd, hyci, _⟩
      · rw [hyci]
        constructor
        · intro _
          rfl
        · intro _
          rw [Option.some_inj]
          exact hcnd.1.symm
      · rw [hyci]
        constructor
        · intro hr
          exfalso
          rw [Option.some_inj] at hr
          have hy0t0 : y0 = t0 := by
            apply List.inj_on_of_nodup_map hnd hy0 ht0mem
            rw [← hr, ht0id]
          apply hcnd
          constructor
          · rw [← hr]
          · rw [hy0t0]
            exact ht0arch
        · intro hc
          exfalso
          have := hcb y0 hy0 newT.id hc
          rw [hnid] at this
          exact lt_irrefl _ this
    · rw [hxrv, hyid, hyci]
      constructor
      · intro hr
        exfalso
        rw [Option.some_inj] at hr
        exact hold_ne hr
      · intro hc
        cases hc

end Continuum
namespace Continuum

lemma storeInv_applyFinish (s : Store) (pending : MMessage) (reason : String)
    (tid now : Nat) (h : StoreInv s) : StoreInv (applyFinish s pending reason tid now) := by
  refine storeInv_of_map s _ (fun t =>
    if t.id = tid then
      { t with
        state := if t.state = .cooling then .active else t.state
        updatedAt := now
        lastMessageAt := some (max (t.lastMessageAt.getD pending.createdAt) pending.createdAt) }
    else t) rfl rfl ?_ ?_ ?_ ?_ h
  · intro t
    dsimp only
    split
    · rfl
    · rfl
  · intro t
    dsimp only
    split
    · rfl
    · rfl
  · intro t
    dsimp only
    split
    · rfl
    · rfl
  · intro t
    dsimp only
    split
    · by_cases hcool : t.state = .cooling
      · rw [if_pos hcool]
        constructor
        · intro hx
          cases hx
        · intro hx
          rw [hcool] at hx
          cases hx
      · rw [if_neg hcool]
    · exact Iff.rfl

lemma storeInv_createPhase (s : Store) (pending : MMessage) (decision : StoreDecision)
    (rsrc : Option Nat) (now : Nat) (h : StoreInv s) :
    StoreInv (applyCreatePhase s pending decision rsrc now).1 := by
  unfold applyCreatePhase
  split
  · rcases rsrc with _ | oldId
    · dsimp only
      exact storeInv_append s _ _ rfl rfl rfl rfl rfl h
    · dsimp only
      split
      · rename_i ha
        refine storeInv_revival s _
          { id := s.nextThreadId
            title := decision.title.getD (buildTitle pending.content)
            state := .active
            createdAt := now
            updatedAt := now
            lastMessageAt := some pending.createdAt
            archivedAt := none
            supersededAt := none
            revivesThreadId := none
            continuedInThreadId := none
            mergedIntoThreadId := none } oldId now rfl rfl rfl rfl ?_ rfl rfl h
        rw [List.any_eq_true] at ha
        obtain ⟨t0, ht0, hcond⟩ := ha
        simp only [decide_eq_true_eq] at hcond
        rw [List.mem_append] at ht0
        rcases ht0 with ht0 | ht0
        · exact ⟨t0, ht0, hcond⟩
        · rw [List.mem_singleton] at ht0
          rw [ht0] at hcond
          cases hcond.2
      · dsimp only
        exact storeInv_append s _ _ rfl rfl rfl rfl rfl h
  · exact h

lemma storeInv_applyResult (s : Store) (pending : MMessage) (decision : StoreDecision)
    (rsrc : Option Nat) (now : Nat) (h : StoreInv s) :
    StoreInv (applyResult s pending decision rsrc now) := by
  obtain ⟨tid, hp⟩ := applyCreatePhase_snd_some s pending decision rsrc now
  have heq : applyResult s pending decision rsrc now =
      applyFinish (applyCreatePhase s pending decision rsrc now).1
        pending decision.reason tid now := by
    unfold applyResult
    rw [applyAssignment_eq_of_some s pending decision rsrc now tid hp]
  rw [heq]
  exact storeInv_applyFinish _ pending decision.reason tid now
    (storeInv_createPhase s pending decision rsrc now h)

end Continuum
namespace Continuum

lemma storeInv_merge (s s2 : Store) (src tgt now : Nat) (hne : src ≠ tgt)
    (h : mergeExec s src tgt now = some s2)
    (hlive : (s.threads.any fun t => t.id = tgt ∧ isLive t.state) = true)
    (hinv : StoreInv s) : StoreInv s2 := by
  obtain ⟨hnd, hfr, hrb, hcb, hnll, hli⟩ := hinv
  obtain ⟨t1, ht1mem, ht1id, ht1live⟩ :
      ∃ t1 ∈ s.threads, t1.id = tgt ∧ isLive t1.state = true := by
    rw [List.any_eq_true] at hlive
    obtain ⟨t1, ht1, hcond⟩ := hlive
    simp only [decide_eq_true_eq] at hcond
    exact ⟨t1, ht1, hcond⟩
  unfold mergeExec at h
  split_ifs at h
  dsimp only at h
  rw [Option.some_inj] at h
  have ht2 : s2.threads = (s.threads.map (fun t =>
      if t.id = src ∧ isLive t.state then
        { t with
          state := .superseded
          mergedIntoThreadId := some tgt
          supersededAt := some now
          updatedAt := now }
      else t)).map (fun t =>
      if t.id = tgt then
        { t with
          state := .active
          lastMessageAt := (((s.messages.map (fun m =>
            if m.threadId = some src then { m with threadId := some tgt } else m)).filter
            (fun m => m.threadId = some tgt)).map (fun m => m.createdAt)).max?
          updatedAt := now }
      else t) := by
    rw [← h]
  have hn2 : s2.nextThreadId = s.nextThreadId := by
    rw [← h]
  have hfields : ∀ x ∈ s2.threads, ∃ x0 ∈ s.threads, x.id = x0.id ∧
      x.revivesThreadId = x0.revivesThreadId ∧
      x.continuedInThreadId = x0.continuedInThreadId ∧
      (x.state = .superseded ∨ (x0.id = tgt ∧ x.state = .active) ∨ x.state = x0.state) := by
    intro x hx
    rw [ht2] at hx
    obtain ⟨x1, hx1, rfl⟩ := List.mem_map.mp hx
    obtain ⟨x0, hx0, rfl⟩ := List.mem_map.mp hx1
    refine ⟨x0, hx0, ?_⟩
    dsimp only
    by_cases hc1 : x0.id = src ∧ isLive x0.state = true
    · rw [if_pos hc1]
      rw [if_neg (show ¬ ({ x0 with
          state := TState.superseded
          mergedIntoThreadId := some tgt
          supersededAt := some now
          updatedAt := now } : MThread).id = tgt from
        fun hx2 => hne (by rw [← hc1.1]; exact hx2))]
      exact ⟨rfl, rfl, rfl, Or.inl rfl⟩
    · rw [if_neg hc1]
      by_cases hc2 : x0.id = tgt
      · rw [if_pos hc2]
        exact ⟨rfl, rfl, rfl, Or.inr (Or.inl ⟨hc2, rfl⟩)⟩
      · rw [if_neg hc2]
        exact ⟨rfl, rfl, rfl, Or.inr (Or.inr rfl)⟩
  have hid2 : ∀ t : MThread, ((fun t => if t.id = tgt then
      { t with
        state := TState.active
        lastMessageAt := (((s.messages.map (fun m =>
          if m.threadId = some src then { m with threadId := some tgt } else m)).filter
          (fun m => m.threadId = some tgt)).map (fun m => m.createdAt)).max?
        updatedAt := now }
      else t)
      ((fun t => if t.id = src ∧ isLive t.state then
        { t with
          state := TState.superseded
          mergedIntoThreadId := some tgt
          supersededAt := some now
          updatedAt := now }
      else t) t)).id = t.id := by
    intro t
    dsimp only
    by_cases hc1 : t.id = src ∧ isLive t.state = true
    · rw [if_pos hc1]
      split
      · rfl
      · rfl
    · rw [if_neg hc1]
      split
      · rfl
      · rfl
  refine ⟨?_, ?_, ?_, ?_, ?_, ?_⟩
  · have heq : List.map MThread.id s2.threads = List.map MThread.id s.threads := by
      rw [ht2, List.map_map, List.map_map]
      apply List.map_congr_left
      intro t _
      exact hid2 t
    rw [heq]
    exact hnd
  · intro t htm
    obtain ⟨x0, hx0, hid, _, _, _⟩ := hfields t htm
    rw [hn2, hid]
    exact hfr x0 hx0
  · intro t htm r hr
    obtain ⟨x0, hx0, _, hrv, _, _⟩ := hfields t htm
    rw [hrv] at hr
    rw [hn2]
    exact hrb x0 hx0 r hr
  · intro t htm r hr
    obtain ⟨x0, hx0, _, _, hci, _⟩ := hfields t htm
    rw [hci] at hr
    rw [hn2]
    exact hcb x0 hx0 r hr
  · intro t htm hst
    obtain ⟨x0, hx0, _, _, hci, hstate⟩ := hfields t htm
    rw [hci]
    rcases hstate with h1 | ⟨hc2, _⟩ | h3
    · exact absurd h1 hst
    · have hx0t1 : x0 = t1 := by
        apply List.inj_on_of_nodup_map hnd hx0 ht1mem
        rw [hc2, ht1id]
      apply hnll x0 hx0
      rw [hx0t1]
      intro hx2
      rw [hx2] at ht1live
      cases ht1live
    · apply hnll x0 hx0
      intro hx2
      exact hst (h3.trans hx2)
  · intro x hx y hy
    obtain ⟨x0, hx0, hxid, hxrv, _, _⟩ := hfields x hx
    obtain ⟨y0, hy0, hyid, _, hyci, _⟩ := hfields y hy
    rw [hxrv, hyci, hxid, hyid]
    exact hli x0 hx0 y0 hy0

lemma storeInv_empty : StoreInv emptyStore := by
  refine ⟨?_, ?_, ?_, ?_, ?_, ?_⟩ <;> simp [emptyStore, LinkInv]

lemma storeInv_step (s s2 : Store) (h : EngineStep true s s2) (hinv : StoreInv s) :
    StoreInv s2 := by
  cases h with
  | ingest author content now => exact storeInv_congr s _ rfl rfl hinv
  | claimStep m hm hp hold => exact storeInv_congr s _ rfl rfl hinv
  | applyStep m decision rsrc now hm hs =>
    exact storeInv_applyResult s m decision rsrc now hinv
  | failStep m hm hs => exact storeInv_congr s _ rfl rfl hinv
  | cool now thrA => exact storeInv_coolPass s now thrA hinv
  | archive now thrC => exact storeInv_archivePass s now thrC hinv
  | merge src tgt now s3 hne hmerge hlive =>
    exact storeInv_merge s _ src tgt now hne hmerge (hlive rfl) hinv

lemma reach_storeInv (s : Store) (h : Reach true s) : StoreInv s := by
  induction h with
  | init => exact storeInv_empty
  | step h1 h2 ih => exact storeInv_step _ _ h2 ih

end Continuum
namespace Continuum

lemma applyFinish_fields (s : Store) (pending : MMessage) (reason : String)
    (tid now : Nat) : ∀ t2 ∈ (applyFinish s pending reason tid now).threads,
    ∃ t ∈ s.threads, t.id = t2.id ∧ t2.revivesThreadId = t.revivesThreadId ∧
      t2.continuedInThreadId = t.continuedInThreadId := by
  intro t2 ht2
  obtain ⟨t, ht, rfl⟩ := List.mem_map.mp ht2
  refine ⟨t, ht, ?_⟩
  dsimp only
  split
  · exact ⟨rfl, rfl, rfl⟩
  · exact ⟨rfl, rfl, rfl⟩

lemma applyCreatePhase_no_archived (s : Store) (pending : MMessage)
    (decision : StoreDecision) (oldId now : Nat)
    (hno : ∀ t ∈ s.threads, t.id = oldId → t.state ≠ .archived) :
    ∀ t2 ∈ (applyCreatePhase s pending decision (some oldId) now).1.threads,
      (t2.revivesThreadId = none ∧ t2.continuedInThreadId = none) ∨
      (∃ t ∈ s.threads, t.id = t2.id ∧ t2.revivesThreadId = t.revivesThreadId ∧
        t2.continuedInThreadId = t.continuedInThreadId) := by
  unfold applyCreatePhase
  split
  · dsimp only
    have hany : ((s.threads ++
        [({ id := s.nextThreadId
            title := decision.title.getD (buildTitle pending.content)
            state := .active
            createdAt := now
            updatedAt := now
            lastMessageAt := some pending.createdAt
            archivedAt := none
            supersededAt := none
            revivesThreadId := none
            continuedInThreadId := none
            mergedIntoThreadId := none } : MThread)]).any
        fun t => t.id = oldId ∧ t.state = .archived) = false := by
      rw [List.any_eq_false]
      intro t ht
      rw [List.mem_append] at ht
      simp only [decide_eq_true_eq]
      rcases ht with ht | ht
      · intro hc
        exact hno t ht hc.1 hc.2
      · rw [List.mem_singleton] at ht
        rw [ht]
        intro hc
        cases hc.2
    simp only [hany, Bool.false_eq_true, if_false]
    intro t2 ht2
    rw [List.mem_append] at ht2
    rcases ht2 with ht2 | ht2
    · exact Or.inr ⟨t2, ht2, rfl, rfl, rfl⟩
    · rw [List.mem_singleton] at ht2
      rw [ht2]
      exact Or.inl ⟨rfl, rfl⟩
  · intro t2 ht2
    exact Or.inr ⟨t2, ht2, rfl, rfl, rfl⟩

lemma applyResult_no_archived (s : Store) (pending : MMessage)
    (decision : StoreDecision) (oldId now : Nat)
    (hno : ∀ t ∈ s.threads, t.id = oldId → t.state ≠ .archived) :
    ∀ t2 ∈ (applyResult s pending decision (some oldId) now).threads,
      (t2.revivesThreadId = none ∧ t2.continuedInThreadId = none) ∨
      (∃ t ∈ s.threads, t.id = t2.id ∧ t2.revivesThreadId = t.revivesThreadId ∧
        t2.continuedInThreadId = t.continuedInThreadId) := by
  obtain ⟨tid, hp⟩ := applyCreatePhase_snd_some s pending decision (some oldId) now
  have heq : applyResult s pending decision (some oldId) now =
      applyFinish (applyCreatePhase s pending decision (some oldId) now).1
        pending decision.reason tid now := by
    unfold applyResult
    rw [applyAssignment_eq_of_some s pending decision (some oldId) now tid hp]
  rw [heq]
  intro t2 ht2
  obtain ⟨t1, ht1, hid, hrv, hci⟩ := applyFinish_fields _ pending decision.reason tid now t2 ht2
  rcases applyCreatePhase_no_archived s pending decision oldId now hno t1 ht1 with
    ⟨h1, h2⟩ | ⟨t, ht, hid2, hrv2, hci2⟩
  · exact Or.inl ⟨hrv.trans h1, hci.trans h2⟩
  · exact Or.inr ⟨t, ht, hid2.trans hid, hrv.trans hrv2, hci.trans hci2⟩

end Continuum
namespace Continuum

/-- C6 (counterexample): the bidirectional revival-link invariant is *not*
true in every reachable store state.  A concrete 16-transaction run —
create a thread, let it archive, revive it, merge a third thread into the
superseded original (the merge transaction re-activates its target
unconditionally, `WHERE id = $1`), let it archive again, and revive it a
second time — reaches a state where thread 1 still has
`revives_thread_id = 0` but thread 0's `continued_in_thread_id` was
overwritten to 3: one half of the old link survives alone. -/
theorem revival_link_iff_refuted :
    Reach false c6s16 ∧ ¬ LinkInv c6s16 ∧
    (∃ x ∈ c6s16.threads, ∃ y ∈ c6s16.threads,
      x.revivesThreadId = some y.id ∧ y.continuedInThreadId ≠ some x.id) := by
  refine ⟨?_, by decide, by decide⟩
  have r1 : Reach false c6s1 := Reach.step Reach.init (EngineStep.ingest emptyStore "a" "m0" 0)
  have r2 : Reach false c6s2 :=
    Reach.step r1 (EngineStep.claimStep c6s1 c6msg0p (by decide) (by decide) (by decide))
  have r3 : Reach false c6s3 :=
    Reach.step r2 (EngineStep.applyStep c6s2 c6msg0 c6dec none 1 (by decide) (by decide))
  have r4a : Reach false c6s4a := Reach.step r3 (EngineStep.cool c6s3 100 1)
  have r4 : Reach false c6s4 := Reach.step r4a (EngineStep.archive c6s4a 100 1)
  have r5 : Reach false c6s5 := Reach.step r4 (EngineStep.ingest c6s4 "a" "m1" 100)
  have r6 : Reach false c6s6 :=
    Reach.step r5 (EngineStep.claimStep c6s5 c6msg1p (by decide) (by decide) (by decide))
  have r7 : Reach false c6s7 :=
    Reach.step r6 (EngineStep.applyStep c6s6 c6msg1 c6dec (some 0) 101 (by decide) (by decide))
  have r8 : Reach false c6s8 := Reach.step r7 (EngineStep.ingest c6s7 "a" "m2" 101)
  have r9 : Reach false c6s9 :=
    Reach.step r8 (EngineStep.claimStep c6s8 c6msg2p (by decide) (by decide) (by decide))
  have r10 : Reach false c6s10 :=
    Reach.step r9 (EngineStep.applyStep c6s9 c6msg2 c6dec none 102 (by decide) (by decide))
  have r11 : Reach false c6s11 :=
    Reach.step r10 (EngineStep.merge c6s10 2 0 103 c6s11 (by decide) (by decide)
      (fun hx => absurd hx Bool.false_ne_true))
  have r12 : Reach false c6s12 := Reach.step r11 (EngineStep.cool c6s11 1000 1)
  have r13 : Reach false c6s13 := Reach.step r12 (EngineStep.archive c6s12 1000 1)
  have r14 : Reach false c6s14 := Reach.step r13 (EngineStep.ingest c6s13 "a" "m3" 1000)
  have r15 : Reach false c6s15 :=
    Reach.step r14 (EngineStep.claimStep c6s14 c6msg3p (by decide) (by decide) (by decide))
  exact Reach.step r15 (EngineStep.applyStep c6s15 c6msg3 c6dec (some 0) 1001 (by decide) (by decide))

/-- C6 (amended): (1) in every store state reachable by runs in which each
merge commits while its target is still live — the one fact the merge
transaction does not re-check — the revival link is bidirectional:
`X.revives_thread_id = some Y.id` iff `Y.continued_in_thread_id = some X.id`;
and (2) the two halves are set in one transaction or not at all: when the
old thread is not `archived` at commit time, the assignment transaction
sets neither side — every thread it leaves behind either carries no link
fields at all (the fresh thread) or carries exactly the link fields it had
before. -/
theorem revival_link_bidirectional_amended :
    (∀ s : Store, Reach true s → LinkInv s) ∧
    (∀ (s : Store) (pending : MMessage) (decision : StoreDecision) (oldId now : Nat),
      (∀ t ∈ s.threads, t.id = oldId → t.state ≠ .archived) →
      ∀ t2 ∈ (applyResult s pending decision (some oldId) now).threads,
        (t2.revivesThreadId = none ∧ t2.continuedInThreadId = none) ∨
        (∃ t ∈ s.threads, t.id = t2.id ∧ t2.revivesThreadId = t.revivesThreadId ∧
          t2.continuedInThreadId = t.continuedInThreadId)) :=
  ⟨fun s h => (reach_storeInv s h).2.2.2.2.2,
   fun s pending decision oldId now hno => applyResult_no_archived s pending decision oldId now hno⟩

/-- The amended C6 theorem applied at concrete inputs: the first seven
transactions of the counterexample run (which contain a genuine revival
and no merge, hence are strict-reachable) satisfy the invariant, and an
assignment against a store whose revival source is no longer archived
sets no link. -/
theorem revival_link_bidirectional_amended_witness :
    LinkInv c6s7 ∧
    (∀ t2 ∈ (applyResult c6s4 c6msg1 c6dec (some 7) 101).threads,
      (t2.revivesThreadId = none ∧ t2.continuedInThreadId = none) ∨
      (∃ t ∈ c6s4.threads, t.id = t2.id ∧ t2.revivesThreadId = t.revivesThreadId ∧
        t2.continuedInThreadId = t.continuedInThreadId)) := by
  constructor
  · have r1 : Reach true c6s1 := Reach.step Reach.init (EngineStep.ingest emptyStore "a" "m0" 0)
    have r2 : Reach true c6s2 :=
      Reach.step r1 (EngineStep.claimStep c6s1 c6msg0p (by decide) (by decide) (by decide))
    have r3 : Reach true c6s3 :=
      Reach.step r2 (EngineStep.applyStep c6s2 c6msg0 c6dec none 1 (by decide) (by decide))
    have r4a : Reach true c6s4a := Reach.step r3 (EngineStep.cool c6s3 100 1)
    have r4 : Reach true c6s4 := Reach.step r4a (EngineStep.archive c6s4a 100 1)
    have r5 : Reach true c6s5 := Reach.step r4 (EngineStep.ingest c6s4 "a" "m1" 100)
    have r6 : Reach true c6s6 :=
      Reach.step r5 (EngineStep.claimStep c6s5 c6msg1p (by decide) (by decide) (by decide))
    have r7 : Reach true c6s7 :=
      Reach.step r6 (EngineStep.applyStep c6s6 c6msg1 c6dec (some 0) 101 (by decide) (by decide))
    exact revival_link_bidirectional_amended.1 c6s7 r7
  · exact revival_link_bidirectional_amended.2 c6s4 c6msg1 c6dec 7 101 (by decide)

end Continuum
namespace Continuum

lemma bestStep_pos (content : String) (a : String) (sa : ℚ) (it : String × String)
    (h : sa < scoreSimilarity content it.2) :
    bestStep content (some (a, sa)) it = some (it.1, scoreSimilarity content it.2) := by
  unfold bestStep
  dsimp only
  rw [if_pos h]

lemma bestStep_neg (content : String) (a : String) (sa : ℚ) (it : String × String)
    (h : ¬ sa < scoreSimilarity content it.2) :
    bestStep content (some (a, sa)) it = some (a, sa) := by
  unfold bestStep
  dsimp only
  rw [if_neg h]

lemma bestFold_from_acc (content : String) :
    ∀ (items : List (String × String)) (a : String) (sa : ℚ),
    (items.foldl (bestStep content) (some (a, sa)) = some (a, sa) ∧
      ∀ it ∈ items, scoreSimilarity content it.2 ≤ sa) ∨
    (∃ i, ∃ hi : i < items.length,
      items.foldl (bestStep content) (some (a, sa)) =
        some ((items.get ⟨i, hi⟩).1, scoreSimilarity content (items.get ⟨i, hi⟩).2) ∧
      sa < scoreSimilarity content (items.get ⟨i, hi⟩).2 ∧
      (∀ it ∈ items, scoreSimilarity content it.2 ≤
        scoreSimilarity content (items.get ⟨i, hi⟩).2) ∧
      (∀ j (hj : j < i), scoreSimilarity content ((items.get ⟨j, Nat.lt_trans hj hi⟩)).2 <
        scoreSimilarity content (items.get ⟨i, hi⟩).2)) := by
  intro items
  induction items with
  | nil =>
    intro a sa
    left
    constructor
    · rfl
    · intro it h
      cases h
  | cons it rest ih =>
    intro a sa
    rw [List.foldl_cons]
    by_cases hlt : sa < scoreSimilarity content it.2
    · rw [bestStep_pos content a sa it hlt]
      rcases ih it.1 (scoreSimilarity content it.2) with ⟨heq, hub⟩ | ⟨i, hi, heq, hgt, hub, hfirst⟩
      · right
        refine ⟨0, Nat.succ_pos _, ?_, ?_, ?_, ?_⟩
        · simpa using heq
        · simpa using hlt
        · intro x hx
          rcases List.mem_cons.mp hx with rfl | hx
          · simp
          · simpa using hub x hx
        · intro j hj
          exact absurd hj (Nat.not_lt_zero j)
      · right
        refine ⟨i + 1, Nat.succ_lt_succ hi, ?_, ?_, ?_, ?_⟩
        · simpa using heq
        · simpa using lt_trans hlt hgt
        · intro x hx
          rcases List.mem_cons.mp hx with rfl | hx
          · simpa using le_of_lt hgt
          · simpa using hub x hx
        · intro j hj
          cases j with
          | zero => simpa using hgt
          | succ j2 =>
            have hj2 : j2 < i := Nat.lt_of_succ_lt_succ hj
            simpa using hfirst j2 hj2
    · rw [bestStep_neg content a sa it hlt]
      rcases ih a sa with ⟨heq, hub⟩ | ⟨i, hi, heq, hgt, hub, hfirst⟩
      · left
        constructor
        · exact heq
        · intro x hx
          rcases List.mem_cons.mp hx with rfl | hx
          · exact le_of_not_lt hlt
          · exact hub x hx
      · right
        refine ⟨i + 1, Nat.succ_lt_succ hi, ?_, ?_, ?_, ?_⟩
        · simpa using heq
        · simpa using hgt
        · intro x hx
          rcases List.mem_cons.mp hx with rfl | hx
          · simpa using le_trans (le_of_not_lt hlt) (le_of_lt hgt)
          · simpa using hub x hx
        · intro j hj
          cases j with
          | zero => simpa using lt_of_le_of_lt (le_of_not_lt hlt) hgt
          | succ j2 =>
            have hj2 : j2 < i := Nat.lt_of_succ_lt_succ hj
            simpa using hfirst j2 hj2

lemma bestMatch_spec (content : String) (items : List (String × String)) (h : items ≠ []) :
    ∃ i, ∃ hi : i < items.length,
      bestMatch content items =
        some ((items.get ⟨i, hi⟩).1, scoreSimilarity content (items.get ⟨i, hi⟩).2) ∧
      (∀ it ∈ items, scoreSimilarity content it.2 ≤
        scoreSimilarity content (items.get ⟨i, hi⟩).2) ∧
      (∀ j (hj : j < i), scoreSimilarity content ((items.get ⟨j, Nat.lt_trans hj hi⟩)).2 <
        scoreSimilarity content (items.get ⟨i, hi⟩).2) := by
  rcases items with _ | ⟨it, rest⟩
  · exact absurd rfl h
  · unfold bestMatch
    rw [List.foldl_cons]
    rw [show bestStep content none it = some (it.1, scoreSimilarity content it.2) from rfl]
    rcases bestFold_from_acc content rest it.1 (scoreSimilarity content it.2) with
      ⟨heq, hub⟩ | ⟨i, hi, heq, hgt, hub, hfirst⟩
    · refine ⟨0, Nat.succ_pos _, by simpa using heq, ?_, ?_⟩
      · intro x hx
        rcases List.mem_cons.mp hx with rfl | hx
        · simp
        · simpa using hub x hx
      · intro j hj
        exact absurd hj (Nat.not_lt_zero j)
    · refine ⟨i + 1, Nat.succ_lt_succ hi, by simpa using heq, ?_, ?_⟩
      · intro x hx
        rcases List.mem_cons.mp hx with rfl | hx
        · simpa using le_of_lt hgt
        · simpa using hub x hx
      · intro j hj
        cases j with
        | zero => simpa using hgt
        | succ j2 =>
          have hj2 : j2 < i := Nat.lt_of_succ_lt_succ hj
          simpa using hfirst j2 hj2

/-- C2: on a non-empty candidate list, `fallbackAssignment` (a pure
function, hence deterministic) picks the first candidate attaining the
maximal Jaccard score of the message content against
`title + " " + recent_excerpt`; it assigns to that candidate with
confidence `min 1 (score + 0.25)` when the maximal score is ≥ 0.26 and
otherwise creates with the fallback title and confidence 0.62. -/
theorem fallbackAssignment_spec (content : String) (cs : List ThreadCandidate)
    (t : String) (h : cs ≠ []) :
    ∃ i, ∃ hi : i < cs.length,
      (∀ c ∈ cs, candScore content c ≤ candScore content (cs.get ⟨i, hi⟩)) ∧
      (∀ j (hj : j < i), candScore content (cs.get ⟨j, Nat.lt_trans hj hi⟩) <
        candScore content (cs.get ⟨i, hi⟩)) ∧
      (26/100 ≤ candScore content (cs.get ⟨i, hi⟩) →
        fallbackAssignment content cs t =
          { action := .assign
            threadId := some (cs.get ⟨i, hi⟩).id
            title := none
            confidence := some (min 1 (candScore content (cs.get ⟨i, hi⟩) + 1/4))
            reason := "Heuristic token overlap matched an existing thread." }) ∧
      (¬ 26/100 ≤ candScore content (cs.get ⟨i, hi⟩) →
        fallbackAssignment content cs t =
          { action := .create
            threadId := none
            title := some t
            confidence := some (62/100)
            reason := "No strong overlap with existing active threads." }) := by
  have hne : (cs.map fun c => (c.id, candText c.title c.recent_excerpt)) ≠ [] := by
    intro hx
    exact h (List.map_eq_nil_iff.mp hx)
  obtain ⟨i, hi0, heq, hub, hfirst⟩ :=
    bestMatch_spec content (cs.map fun c => (c.id, candText c.title c.recent_excerpt)) hne
  have hi : i < cs.length := by
    rw [List.length_map] at hi0
    exact hi0
  have hget : ∀ (j : Nat) (hj0 : j < (cs.map fun c =>
      (c.id, candText c.title c.recent_excerpt)).length) (hj : j < cs.length),
      ((cs.map fun c => (c.id, candText c.title c.recent_excerpt)).get ⟨j, hj0⟩) =
      ((cs.get ⟨j, hj⟩).id, candText (cs.get ⟨j, hj⟩).title (cs.get ⟨j, hj⟩).recent_excerpt) := by
    intro j hj0 hj
    simp [List.get_eq_getElem, List.getElem_map]
  refine ⟨i, hi, ?_, ?_, ?_, ?_⟩
  · intro c hc
    have hx := hub (c.id, candText c.title c.recent_excerpt) (List.mem_map_of_mem _ hc)
    rw [hget i hi0 hi] at hx
    exact hx
  · intro j hj
    have hx := hfirst j hj
    rw [hget i hi0 hi, hget j (Nat.lt_trans hj hi0) (Nat.lt_trans hj hi)] at hx
    exact hx
  · intro hth
    unfold fallbackAssignment
    rw [heq, hget i hi0 hi]
    dsimp only
    rw [if_pos (show (26 : ℚ)/100 ≤ scoreSimilarity content
      (candText (cs.get ⟨i, hi⟩).title (cs.get ⟨i, hi⟩).recent_excerpt) from hth)]
    rfl
  · intro hth
    unfold fallbackAssignment
    rw [heq, hget i hi0 hi]
    dsimp only
    rw [if_neg (show ¬ (26 : ℚ)/100 ≤ scoreSimilarity content
      (candText (cs.get ⟨i, hi⟩).title (cs.get ⟨i, hi⟩).recent_excerpt) from hth)]

/-- Witness for C2: the characterization applied to a one-candidate list. -/
theorem fallbackAssignment_spec_witness :
    ∃ i, ∃ hi : i < ([c3AcceptCandidate] : List ThreadCandidate).length,
      (∀ c ∈ [c3AcceptCandidate], candScore "w" c ≤
        candScore "w" (([c3AcceptCandidate] : List ThreadCandidate).get ⟨i, hi⟩)) ∧
      (∀ j (hj : j < i), candScore "w" (([c3AcceptCandidate] : List ThreadCandidate).get
          ⟨j, Nat.lt_trans hj hi⟩) <
        candScore "w" (([c3AcceptCandidate] : List ThreadCandidate).get ⟨i, hi⟩)) ∧
      (26/100 ≤ candScore "w" (([c3AcceptCandidate] : List ThreadCandidate).get ⟨i, hi⟩) →
        fallbackAssignment "w" [c3AcceptCandidate] "T" =
          { action := .assign
            threadId := some (([c3AcceptCandidate] : List ThreadCandidate).get ⟨i, hi⟩).id
            title := none
            confidence := some (min 1 (candScore "w"
              (([c3AcceptCandidate] : List ThreadCandidate).get ⟨i, hi⟩) + 1/4))
            reason := "Heuristic token overlap matched an existing thread." }) ∧
      (¬ 26/100 ≤ candScore "w" (([c3AcceptCandidate] : List ThreadCandidate).get ⟨i, hi⟩) →
        fallbackAssignment "w" [c3AcceptCandidate] "T" =
          { action := .create
            threadId := none
            title := some "T"
            confidence := some (62/100)
            reason := "No strong overlap with existing active threads." }) :=
  fallbackAssignment_spec "w" [c3AcceptCandidate] "T" (by decide)

end Continuum
